import Mathlib

set_option maxHeartbeats 1000000

/- Verification development for the viscous-flow solver unit CNSSolver.cpp:
   a shallow embedding of its primitive-state update, conjugate-heat-transfer
   wall temperature, wall boundary conditions, wall-function solver, viscous
   flux assembly and buffet monitoring, together with theorems about them.
   Machine reals are modelled by exact real arithmetic. -/

noncomputable section

namespace SU2

/-- Dot product of the first n components (GeometryToolbox::DotProduct). -/
def dotR (n : ℕ) (a b : ℕ → ℝ) : ℝ := ∑ i ∈ Finset.range n, a i * b i

/-- Sum of squares of the first n components (GeometryToolbox::SquaredNorm). -/
def sqNormR (n : ℕ) (a : ℕ → ℝ) : ℝ := ∑ i ∈ Finset.range n, a i * a i

/-- Euclidean norm of the first n components (GeometryToolbox::Norm). -/
def gnorm (n : ℕ) (a : ℕ → ℝ) : ℝ := Real.sqrt (sqNormR n a)

/-- Distance between two coordinate vectors (GeometryToolbox::Distance). -/
def gdist (n : ℕ) (a b : ℕ → ℝ) : ℝ := gnorm n (fun i => a i - b i)

/-- Pointwise update of a real-valued field at one index. -/
def updFun (f : ℕ → ℝ) (p : ℕ) (x : ℝ) : ℕ → ℝ := fun q => if q = p then x else f q

/-- Modelled from the spec: CNumerics::ComputeStressTensor is declared in
CNumerics and is not part of this source unit; per the spec it is the "Stress
Tensor Kernel", a pure function building the viscous stress tensor from the
velocity gradient and an effective viscosity. Standard deviatoric form:
tau i j = mu (grad i j + grad j i) - (2/3) mu (div u) delta i j, where
grad i d is the derivative of velocity component i in direction d. -/
def stressTensor (nDim : ℕ) (grad : ℕ → ℕ → ℝ) (mu : ℝ) : ℕ → ℕ → ℝ :=
  fun i j =>
    if i < nDim ∧ j < nDim then
      mu * (grad i j + grad j i) -
        (if i = j then 2 / 3 * mu * (∑ d ∈ Finset.range nDim, grad d d) else 0)
    else 0

end SU2

/-! ## Primitive State Updater (CNSSolver::SetPrimitive_Variables) -/

namespace SU2.Prim

/-- Conserved state at a vertex: density, momentum, total energy. -/
structure ConsVars where
  density : ℚ
  momentum : List ℚ
  energy : ℚ

/-- Sum of squares of a rational list. -/
def sqSum (l : List ℚ) : ℚ := (l.map (fun x => x * x)).sum

/-- Primitive tuple derived from the conserved state. -/
structure PrimVars where
  temperature : ℚ
  velocity : List ℚ
  pressure : ℚ
  density : ℚ
  enthalpy : ℚ
  eddyVisc : ℚ

/-- Secondary tuple (thermodynamic derivatives). -/
structure SecVars where
  dPdrho_e : ℚ
  dPde_rho : ℚ

/-- Modelled from the spec: CNSVariable::SetPrimVar is not part of this source
unit; per the spec (sections 3 and 4.1) it computes the primitive tuple from
the conserved state, the eddy viscosity and the turbulent kinetic energy using
the fluid model, and returns whether the state is physical; non-physical
states (negative density or pressure) are flagged, not corrected in place.
Ideal-gas relations are used for the fluid model. -/
def setPrimVar (gamma gasConstant eddyVisc turbKE : ℚ) (c : ConsVars) : PrimVars × Bool :=
  let pressure := (gamma - 1) * (c.energy - sqSum c.momentum / (2 * c.density) -
    c.density * turbKE)
  let temperature := pressure / (gasConstant * c.density)
  let prim : PrimVars :=
    { temperature := temperature
      velocity := c.momentum.map (fun m => m / c.density)
      pressure := pressure
      density := c.density
      enthalpy := (c.energy + pressure) / c.density
      eddyVisc := eddyVisc }
  (prim, decide (0 < c.density) && decide (0 < pressure) && decide (0 < temperature))

/-- Modelled from the spec: CVariable::SetSecondaryVar is not part of this
source unit; per the spec it stores thermodynamic derivatives needed for exact
Jacobians, here the ideal-gas pressure derivatives. -/
def setSecondaryVar (gamma : ℚ) (c : ConsVars) : SecVars :=
  { dPdrho_e := (gamma - 1) * sqSum c.momentum / (2 * c.density * c.density)
    dPde_rho := gamma - 1 }

/-- Per-vertex storage as seen by SetPrimitive_Variables: the conserved state,
the turbulence collaborator outputs, and the stored primitive/secondary
tuples. -/
structure PNode where
  cons : ConsVars
  eddyViscTurb : ℚ
  turbKE : ℚ
  prim : Option PrimVars
  second : Option SecVars

/-- Effective eddy viscosity fed to SetPrimVar (zero without a turbulence
model), mirroring lines 205-217. -/
def effEddyVisc (turbActive : Bool) (n : PNode) : ℚ :=
  if turbActive then n.eddyViscTurb else 0

/-- Effective turbulent kinetic energy fed to SetPrimVar (only for SST-type
models), mirroring lines 205-217. -/
def effTurbKE (turbActive tkeNeeded : Bool) (n : PNode) : ℚ :=
  if turbActive && tkeNeeded then n.turbKE else 0

/-- The per-vertex body of the loop in SetPrimitive_Variables (lines 203-228):
store the primitive and the secondary tuple. -/
def updateNode (gamma gasConstant : ℚ) (turbActive tkeNeeded : Bool) (n : PNode) : PNode :=
  { n with
    prim := some (setPrimVar gamma gasConstant (effEddyVisc turbActive n)
      (effTurbKE turbActive tkeNeeded n) n.cons).1
    second := some (setSecondaryVar gamma n.cons) }

/-- The physical flag computed for a vertex. -/
def nodePhysical (gamma gasConstant : ℚ) (turbActive tkeNeeded : Bool) (n : PNode) : Bool :=
  (setPrimVar gamma gasConstant (effEddyVisc turbActive n)
    (effTurbKE turbActive tkeNeeded n) n.cons).2

/-- CNSSolver::SetPrimitive_Variables (lines 193-231): loop over the vertices,
store the primitive and secondary tuples, and count the non-physical states
(nonPhysicalPoints += !physical). Returns the updated storage together with
the count. -/
def SetPrimitive_Variables (gamma gasConstant : ℚ) (turbActive tkeNeeded : Bool)
    (ns : List PNode) : List PNode × ℕ :=
  ns.foldl
    (fun acc n =>
      (acc.1 ++ [updateNode gamma gasConstant turbActive tkeNeeded n],
       acc.2 + (if nodePhysical gamma gasConstant turbActive tkeNeeded n then 0 else 1)))
    ([], 0)

end SU2.Prim

/-! ## Conjugate-heat-transfer wall temperature (CNSSolver::GetCHTWallTemperature) -/

namespace SU2.CHT

/-- The CHT coupling mode selector (config->GetKind_CHT_Coupling()); the
`unknownMode` constructor stands for every configuration value outside the
four supported modes. -/
inductive Coupling where
  | averagedTemperatureNeumannHeatflux
  | averagedTemperatureRobinHeatflux
  | directTemperatureNeumannHeatflux
  | directTemperatureRobinHeatflux
  | unknownMode
deriving DecidableEq

/-- The configuration and conjugate-heat collaborator data consumed by
GetCHTWallTemperature: the coupling mode, the reference viscosity, and the
externally supplied per-(marker, vertex, position) conjugate heat variables
(position 0 is the conjugate temperature, position 2 the conjugate
heat-transfer coefficient). -/
structure Config where
  kindCHTCoupling : Coupling
  viscosityRef : ℝ
  conjugateHeatVar : ℕ → ℕ → ℕ → ℝ

/-- CNSSolver::GetCHTWallTemperature (lines 665-698). The fatal
SU2_MPI::Error on an unknown coupling mode is embedded as Except.error. -/
def GetCHTWallTemperature (config : Config) (val_marker iVertex : ℕ)
    (thermal_conductivity dist_ij There Temperature_Ref : ℝ) : Except String ℝ :=
  let Tconjugate := config.conjugateHeatVar val_marker iVertex 0 / Temperature_Ref
  match config.kindCHTCoupling with
  | .averagedTemperatureNeumannHeatflux | .averagedTemperatureRobinHeatflux =>
    let HF_FactorHere := thermal_conductivity * config.viscosityRef / dist_ij
    let HF_FactorConjugate := config.conjugateHeatVar val_marker iVertex 2
    .ok ((There * HF_FactorHere + Tconjugate * HF_FactorConjugate) /
      (HF_FactorHere + HF_FactorConjugate))
  | .directTemperatureNeumannHeatflux | .directTemperatureRobinHeatflux =>
    .ok Tconjugate
  | .unknownMode => .error "Unknown CHT coupling method."

/-- The call made by BC_Isothermal_Wall_Generic (lines 793-794): note that the
actual arguments there are `(config, val_marker, iVertex, dist_ij,
thermal_conductivity, There, Temperature_Ref)` while the declared parameter
order of GetCHTWallTemperature (lines 665-668) is `(config, val_marker,
iVertex, thermal_conductivity, dist_ij, There, Temperature_Ref)`: the distance
is passed in the conductivity slot and vice versa. This definition reproduces
that call site verbatim. -/
def chtTwallUsed (config : Config) (val_marker iVertex : ℕ)
    (thermal_conductivity dist_ij There Temperature_Ref : ℝ) : Except String ℝ :=
  GetCHTWallTemperature config val_marker iVertex dist_ij thermal_conductivity
    There Temperature_Ref

/-- The wall temperature as the claim states it (written from the claim, for
comparison with the embedded code): flux-weighted average with
h_here = thermal_conductivity * Viscosity_Ref / dist_ij. -/
def chtTwallClaim (viscosityRef thermal_conductivity dist_ij There Tconjugate
    hConjugate : ℝ) : ℝ :=
  (There * (thermal_conductivity * viscosityRef / dist_ij) + Tconjugate * hConjugate) /
    (thermal_conductivity * viscosityRef / dist_ij + hConjugate)

end SU2.CHT

/-! ## Wall-Function Solver (CNSSolver::SetTauWall_WF) -/

namespace SU2.WallFunc

/-- Result of the wall-function fixed-point loop: the last computed wall shear
stress, the last difference, the number of executed loop-body iterations
(the source's `counter`), and whether the non-convergence diagnostic was
emitted (the source's non-fatal WARNING printout before `break`). -/
structure WFResult where
  tauWall : ℝ
  diff : ℝ
  counter : ℕ
  warned : Bool

/-- The while loop of SetTauWall_WF (lines 1003-1044), fuel-indexed. State:
current Tau_Wall, Tau_Wall_Old, diff and counter. One body execution computes
Tau_Wall = f(Tau_Wall_Old), the new diff, the under-relaxed Tau_Wall_Old, and
increments counter; if counter exceeds max_iter the loop warns and breaks. -/
def wfLoopGo (f : ℝ → ℝ) (tol relax : ℝ) (maxIter : ℕ) :
    ℕ → ℝ → ℝ → ℝ → ℕ → WFResult
  | 0, tauWall, _, diff, counter =>
    { tauWall := tauWall, diff := diff, counter := counter, warned := false }
  | fuel + 1, tauWall, tauWallOld, diff, counter =>
    if diff ≤ tol then
      { tauWall := tauWall, diff := diff, counter := counter, warned := false }
    else if maxIter < counter + 1 then
      { tauWall := f tauWallOld, diff := |f tauWallOld - tauWallOld|,
        counter := counter + 1, warned := true }
    else
      wfLoopGo f tol relax maxIter fuel (f tauWallOld)
        (tauWallOld + relax * (f tauWallOld - tauWallOld))
        (|f tauWallOld - tauWallOld|) (counter + 1)

/-- The wall-function fixed-point loop as entered by the source (lines
999-1044): Tau_Wall_Old is the seed, diff starts at 1.0, counter at 0; `while
(diff > tol)` with the break on `counter > max_iter`. The fuel maxIter + 1 is
enough for the break to fire first (proved below). -/
def wfLoop (f : ℝ → ℝ) (tol relax : ℝ) (maxIter : ℕ) (seed : ℝ) : WFResult :=
  wfLoopGo f tol relax maxIter (maxIter + 1) seed seed 1 0

/-- Physical constants consumed by SetTauWall_WF (lines 876-890). -/
structure WFConfig where
  nDim : ℕ
  gamma : ℝ
  gasConstant : ℝ
  prandtlLam : ℝ

/-- Cp = (Gamma / Gamma_Minus_One) * Gas_Constant (line 877). -/
def cpOf (cfg : WFConfig) : ℝ := cfg.gamma / (cfg.gamma - 1) * cfg.gasConstant

/-- Recovery = Prandtl_Lam^(1/3) (line 885). -/
def recoveryOf (cfg : WFConfig) : ℝ := Real.rpow cfg.prandtlLam (1 / 3)

/-- A boundary vertex as consumed by SetTauWall_WF: the mesh node, the nearest
interior neighbor, and the stored marker-vertex normal. -/
structure WFVertex where
  node : ℕ
  normalNeighbor : ℕ
  normal : ℕ → ℝ

/-- The per-point fields read and written by SetTauWall_WF. gradVel p i d is
the derivative of velocity component i in direction d at point p (the
velocity rows of the primitive gradient). -/
structure WFData where
  coord : ℕ → ℕ → ℝ
  velocity : ℕ → ℕ → ℝ
  pressure : ℕ → ℝ
  temperature : ℕ → ℝ
  lamVisc : ℕ → ℝ
  gradVel : ℕ → ℕ → ℕ → ℝ
  domain : ℕ → Bool
  tauWall : ℕ → ℝ

/-- Dual-grid boundary face area (line 926). -/
def wfArea (cfg : WFConfig) (v : WFVertex) : ℝ := gnorm cfg.nDim v.normal

/-- Inward unit normal (lines 928-930), zero-padded like the MAXNDIM array. -/
def wfUnitNormal (cfg : WFConfig) (v : WFVertex) : ℕ → ℝ :=
  fun d => if d < cfg.nDim then -(v.normal d) / wfArea cfg v else 0

/-- Velocity at the nearest interior point, zero-padded (lines 935-937). -/
def wfVel (cfg : WFConfig) (d : WFData) (v : WFVertex) : ℕ → ℝ :=
  fun k => if k < cfg.nDim then d.velocity v.normalNeighbor k else 0

/-- Wall-tangential velocity components (lines 943-947). -/
def wfVelTang (cfg : WFConfig) (d : WFData) (v : WFVertex) : ℕ → ℝ :=
  fun k => wfVel cfg d v k -
    dotR cfg.nDim (wfVel cfg d v) (wfUnitNormal cfg v) * wfUnitNormal cfg v k

/-- Magnitude of the wall-parallel velocity (line 949, a norm over MAXNDIM=3
components of the zero-padded array). -/
def wfVelTangMod (cfg : WFConfig) (d : WFData) (v : WFVertex) : ℝ :=
  gnorm 3 (wfVelTang cfg d v)

/-- Wall-normal distance of the interior point (lines 953-956). -/
def wfWallDistMod (cfg : WFConfig) (d : WFData) (v : WFVertex) : ℝ :=
  gnorm 3 (fun k => if k < cfg.nDim then
    d.coord v.node k - d.coord v.normalNeighbor k else 0)

/-- Wall temperature from the Crocco-Busemann energy balance (line 965). -/
def wfTWall (cfg : WFConfig) (d : WFData) (v : WFVertex) : ℝ :=
  d.temperature v.normalNeighbor +
    recoveryOf cfg * wfVelTangMod cfg d v ^ 2 / (2 * cpOf cfg)

/-- Wall density from extrapolated pressure and the equation of state
(lines 970-971). -/
def wfDensityWall (cfg : WFConfig) (d : WFData) (v : WFVertex) : ℝ :=
  d.pressure v.normalNeighbor / (cfg.gasConstant * wfTWall cfg d v)

/-- Wall-tangential traction components from the stress tensor on the surface
(lines 976-991): TauTangent = TauElem - (TauElem.n) n with
TauElem i = sum_j tau i j n_j. -/
def wfTauTangent (cfg : WFConfig) (d : WFData) (v : WFVertex) : ℕ → ℝ :=
  let tau := stressTensor cfg.nDim (d.gradVel v.node) (d.lamVisc v.node)
  let tauElem : ℕ → ℝ := fun k =>
    if k < cfg.nDim then dotR cfg.nDim (tau k) (wfUnitNormal cfg v) else 0
  let tauNormal := dotR cfg.nDim tauElem (wfUnitNormal cfg v)
  fun k => tauElem k - tauNormal * wfUnitNormal cfg v k

/-- The starting guess of the wall-function iteration (line 993): the
magnitude of the wall-tangential component of the surface shear stress,
computed from the current velocity gradient - not from the cached value. -/
def wfSeed (cfg : WFConfig) (d : WFData) (v : WFVertex) : ℝ :=
  gnorm 3 (wfTauTangent cfg d v)

/-- One body evaluation Tau_Wall = F(Tau_Wall_Old) of the loop at lines
1003-1044: friction velocity, u+, the Nichols-Nelson Gamma/Beta/Q/Phi, the
White-Christoph y+, Spalding's composite y+, and the updated wall shear
stress. -/
def wfStepFun (cfg : WFConfig) (d : WFData) (v : WFVertex) : ℝ → ℝ :=
  fun tauWallOld =>
    let kappa : ℝ := 0.4
    let B : ℝ := 5.5
    let uTau := Real.sqrt (tauWallOld / wfDensityWall cfg d v)
    let uPlus := wfVelTangMod cfg d v / uTau
    let gam := recoveryOf cfg * uTau ^ 2 / (2 * cpOf cfg * wfTWall cfg d v)
    let beta : ℝ := 0
    let q := Real.sqrt (beta * beta + 4 * gam)
    let phi := Real.arcsin (-1 * beta / q)
    let yPlusWhite := Real.exp ((kappa / Real.sqrt gam) *
      (Real.arcsin ((2 * gam * uPlus - beta) / q) - phi)) * Real.exp (-1 * kappa * B)
    let kUp := kappa * uPlus
    let yPlus := uPlus + yPlusWhite -
      Real.exp (-1 * kappa * B) * (1 + kUp * (1 + 1 / 2 * kUp + kUp ^ 2 / 6))
    1 / wfDensityWall cfg d v * (yPlus * d.lamVisc v.node / wfWallDistMod cfg d v) ^ 2

/-- The value stored by nodes->SetTauWall at line 1048: the Tau_Wall left by
the fixed-point loop, with tol = 1e-6, relax = 0.25 and max_iter = 10
(lines 879-881), seeded by wfSeed. -/
def setTauWallVertexValue (cfg : WFConfig) (d : WFData) (v : WFVertex) : ℝ :=
  (wfLoop (wfStepFun cfg d v) 1e-6 0.25 10 (wfSeed cfg d v)).tauWall

/-- Processing of one boundary vertex of SetTauWall_WF (lines 907-1050):
halo vertices are skipped; for owned vertices the converged wall shear
stress is stored into the per-vertex cache. -/
def wfVertexStep (cfg : WFConfig) (d : WFData) (v : WFVertex) : WFData :=
  if d.domain v.node then
    { d with tauWall := updFun d.tauWall v.node (setTauWallVertexValue cfg d v) }
  else d

/-- A boundary marker as seen by SetTauWall_WF: processed only when it is a
viscous wall (line 894). -/
structure WFMarker where
  viscousWall : Bool
  vertices : List WFVertex

/-- CNSSolver::SetTauWall_WF (lines 874-1054): loop over the viscous wall
markers and their vertices. -/
def SetTauWall_WF (cfg : WFConfig) (markers : List WFMarker) (d : WFData) : WFData :=
  markers.foldl
    (fun acc m => if m.viscousWall then m.vertices.foldl (wfVertexStep cfg) acc else acc) d

/-- All vertices actually visited by SetTauWall_WF, in order. -/
def processedVertices (markers : List WFMarker) : List WFVertex :=
  markers.foldr (fun m acc => (if m.viscousWall then m.vertices else []) ++ acc) []

/-- A concrete configuration used to exercise the wall-function solver:
two dimensions, gamma = 7/5, unit gas constant, laminar Prandtl number
72/100. -/
def wfExampleCfg : WFConfig :=
  { nDim := 2, gamma := 7 / 5, gasConstant := 1, prandtlLam := 72 / 100 }

/-- A concrete boundary vertex: node 0, interior neighbor 1, unit normal in
the first direction. -/
def wfExampleVertex : WFVertex :=
  { node := 0, normalNeighbor := 1, normal := fun k => if k = 0 then 1 else 0 }

/-- A concrete per-point data set whose velocity gradient vanishes and whose
wall shear stress cache holds 5 at node 0. -/
def wfExampleData : WFData :=
  { coord := fun p k => if p = 1 ∧ k = 1 then 1 else 0
    velocity := fun _ _ => 0
    pressure := fun _ => 1
    temperature := fun _ => 1
    lamVisc := fun _ => 1
    gradVel := fun _ _ _ => 0
    domain := fun _ => true
    tauWall := fun _ => 5 }

/-- The one-marker list holding the concrete vertex. -/
def wfExampleMarkers : List WFMarker :=
  [{ viscousWall := true, vertices := [wfExampleVertex] }]

end SU2.WallFunc

/-! ## Wall Boundary Enforcer (BC_HeatFlux_Wall, BC_Isothermal_Wall_Generic) -/

namespace SU2.WallBC

/-- A boundary vertex of the marker being processed: its position in the
marker's vertex array (iVertex), its mesh node (iPoint), its nearest interior
neighbor (Point_Normal) and its stored normal. -/
structure BCVertex where
  idx : ℕ
  node : ℕ
  normalNeighbor : ℕ
  normal : ℕ → ℝ

/-- The geometry data consumed by the wall boundary routines. -/
structure BCGeometry where
  coord : ℕ → ℕ → ℝ
  domain : ℕ → Bool
  gridVel : ℕ → ℕ → ℝ
  customHeatFlux : ℕ → ℝ
  customTemperature : ℕ → ℝ
  vertices : List BCVertex

/-- The per-point solution fields read by the wall boundary routines.
primitive p k is the primitive vector (velocity components are entries
1..nDim); gradVel p i d is the velocity part of the primitive gradient. -/
structure BCNodes where
  density : ℕ → ℝ
  pressure : ℕ → ℝ
  temperature : ℕ → ℝ
  lamVisc : ℕ → ℝ
  eddyVisc : ℕ → ℝ
  primitive : ℕ → ℕ → ℝ
  gradVel : ℕ → ℕ → ℕ → ℝ

/-- The global accumulators mutated by the wall boundary routines: the
residual (point, variable), the Jacobian in scalar indexing
(row = point * nVar + variable), the stored old velocity and the velocity
part of the truncation error. -/
structure BCState where
  linSysRes : ℕ → ℕ → ℝ
  jacobian : ℕ → ℕ → ℝ
  velocityOld : ℕ → ℕ → ℝ
  velResTrunc : ℕ → ℕ → ℝ

/-- Configuration consumed by the wall boundary routines. -/
structure BCConfig where
  nDim : ℕ
  gamma : ℝ
  gasConstant : ℝ
  prandtlLam : ℝ
  prandtlTurb : ℝ
  temperatureRef : ℝ
  wallHeatFlux : ℝ
  heatFluxRef : ℝ
  isothermalTemperature : ℝ
  pyCustom : Bool
  dynamicGrid : Bool
  implicitScheme : Bool
  chtConfig : CHT.Config

/-- Number of equations nVar = nDim + 2. -/
def nVarOf (cfg : BCConfig) : ℕ := cfg.nDim + 2

/-- LinSysRes(iPoint, iDim+1) = 0.0 for all iDim (lines 618-619 / 773-774). -/
def zeroMomentumRes (nDim : ℕ) (R : ℕ → ℕ → ℝ) (p : ℕ) : ℕ → ℕ → ℝ :=
  fun q w => if q = p ∧ 1 ≤ w ∧ w ≤ nDim then 0 else R q w

/-- LinSysRes(iPoint, nDim+1) += x (line 640 / 839). -/
def addEnergyRes (nDim : ℕ) (R : ℕ → ℕ → ℝ) (p : ℕ) (x : ℝ) : ℕ → ℕ → ℝ :=
  fun q w => if q = p ∧ w = nDim + 1 then R q w + x else R q w

/-- nodes->SetVelocity_Old(iPoint, v) (lines 610-616 / 765-771). -/
def setVelOld (nDim : ℕ) (V : ℕ → ℕ → ℝ) (p : ℕ) (vec : ℕ → ℝ) : ℕ → ℕ → ℝ :=
  fun q d => if q = p ∧ d < nDim then vec d else V q d

/-- nodes->SetVel_ResTruncError_Zero(iPoint) (line 620 / 775). Modelled from
the spec: the call zeroes the velocity rows of the accumulated truncation
error at the vertex. -/
def zeroVelTrunc (nDim : ℕ) (T : ℕ → ℕ → ℝ) (p : ℕ) : ℕ → ℕ → ℝ :=
  fun q w => if q = p ∧ 1 ≤ w ∧ w ≤ nDim then 0 else T q w

/-- Modelled from the spec: CSysMatrix::DeleteValsRowi is not part of this
source unit; per the spec (section 4.3 step 6) it forcibly zeroes every
off-diagonal entry of the given scalar Jacobian row and leaves the diagonal
at 1.0, severing that equation from the linear system. -/
def DeleteValsRowi (J : ℕ → ℕ → ℝ) (row : ℕ) : ℕ → ℕ → ℝ :=
  fun r c => if r = row then (if c = row then 1 else 0) else J r c

/-- The loop `for iVar in 1..nDim: Jacobian.DeleteValsRowi(iPoint*nVar+iVar)`
(lines 651-654 / 848-851). -/
def deleteMomentumRows (nDim nVar : ℕ) (J : ℕ → ℕ → ℝ) (p : ℕ) : ℕ → ℕ → ℝ :=
  (List.range nDim).foldl (fun M iDim => DeleteValsRowi M (p * nVar + (iDim + 1))) J

/-- Modelled from the spec: CSysMatrix::AddBlock2Diag is not part of this
source unit; it adds a dense nVar-by-nVar block to the diagonal block of the
given vertex. -/
def AddBlock2Diag (nVar : ℕ) (J : ℕ → ℕ → ℝ) (p : ℕ) (B : ℕ → ℕ → ℝ) : ℕ → ℕ → ℝ :=
  fun r c =>
    if p * nVar ≤ r ∧ r < p * nVar + nVar ∧ p * nVar ≤ c ∧ c < p * nVar + nVar then
      J r c + B (r - p * nVar) (c - p * nVar)
    else J r c

/-- CNSSolver::AddDynamicGridResidualContribution (lines 456-548): returns the
additional convective and viscous energy residual of a moving wall and the
row of Jacobian contributions added to the energy row (used only when
Jacobian_i is present, i.e. under implicit time integration). -/
def addDynamicGridContribution (cfg : BCConfig) (geo : BCGeometry) (nd : BCNodes)
    (p pN : ℕ) (unitNormal : ℕ → ℝ) (area : ℝ) : ℝ × ℝ × (ℕ → ℝ) :=
  let nDim := cfg.nDim
  let gv := geo.gridVel p
  let projGridVel := area * dotR nDim gv unitNormal
  let density := nd.density p
  let pressure := nd.pressure p
  let totalVisc := nd.lamVisc p + nd.eddyVisc p
  let tau := stressTensor nDim (nd.gradVel p) totalVisc
  let tauVel : ℕ → ℝ := fun i => dotR nDim (tau i) gv
  let dConv := pressure * projGridVel
  let dVisc := dotR nDim tauVel unitNormal * area
  let gridVel2 := sqNormR nDim gv
  let distIJ := gdist nDim (geo.coord p) (geo.coord pN)
  let factor := totalVisc * area / (density * distIJ)
  let theta : ℕ → ℝ := fun k => 1 + unitNormal k * unitNormal k / 3
  let eta : ℕ → ℕ → ℝ := fun a b => unitNormal a * unitNormal b / 3
  let pix := if nDim = 2 then gv 0 * theta 0 + gv 1 * eta 0 1
    else gv 0 * theta 0 + gv 1 * eta 0 1 + gv 2 * eta 0 2
  let piy := if nDim = 2 then gv 0 * eta 0 1 + gv 1 * theta 1
    else gv 0 * eta 0 1 + gv 1 * theta 1 + gv 2 * eta 1 2
  let piz := gv 0 * eta 0 2 + gv 1 * eta 1 2 + gv 2 * theta 2
  let rowAdd : ℕ → ℝ := fun c =>
    (if c = 0 then 1 / 2 * (cfg.gamma - 1) * gridVel2 * projGridVel +
      (if nDim = 2 then factor * (-pix * gv 0 + piy * gv 1)
       else factor * (-pix * gv 0 + piy * gv 1 + piz * gv 2)) else 0) +
    (if 1 ≤ c ∧ c ≤ nDim then -(cfg.gamma - 1) * gv (c - 1) * projGridVel else 0) +
    (if c = nDim + 1 then (cfg.gamma - 1) * projGridVel else 0) +
    (if c = 1 then factor * pix else 0) +
    (if c = 2 then factor * piy else 0) +
    (if nDim = 3 ∧ c = 3 then factor * piz else 0)
  (dConv, dVisc, rowAdd)

/-- The prescribed wall heat flux used at a vertex (lines 558, 586-587):
the configured value divided by the reference heat flux, or the customizable
per-vertex value. -/
def heatFluxAt (cfg : BCConfig) (geo : BCGeometry) (v : BCVertex) : ℝ :=
  if cfg.pyCustom then geo.customHeatFlux v.idx
  else cfg.wallHeatFlux / cfg.heatFluxRef

/-- The (Res_Conv, Res_Visc) pair accumulated for the energy equation at a
heat-flux wall vertex (lines 603-604 and 625-636). -/
def heatFluxConvVisc (cfg : BCConfig) (geo : BCGeometry) (nd : BCNodes)
    (v : BCVertex) : ℝ × ℝ :=
  let area := gnorm cfg.nDim v.normal
  let unitNormal : ℕ → ℝ := fun k => if k < cfg.nDim then -(v.normal k) / area else 0
  let dyn := addDynamicGridContribution cfg geo nd v.node v.normalNeighbor unitNormal area
  (0 + (if cfg.dynamicGrid then dyn.1 else 0),
   heatFluxAt cfg geo v * area + (if cfg.dynamicGrid then dyn.2.1 else 0))

/-- The loop body of BC_HeatFlux_Wall for one boundary vertex (lines
576-656). -/
def bcHeatFluxVertex (cfg : BCConfig) (geo : BCGeometry) (nd : BCNodes)
    (s : BCState) (v : BCVertex) : BCState :=
  let nDim := cfg.nDim
  let nVar := nVarOf cfg
  if geo.domain v.node = false then s else
  let area := gnorm nDim v.normal
  let unitNormal : ℕ → ℝ := fun k => if k < nDim then -(v.normal k) / area else 0
  let cv := heatFluxConvVisc cfg geo nd v
  let dyn := addDynamicGridContribution cfg geo nd v.node v.normalNeighbor unitNormal area
  let jacRow : ℕ → ℝ := fun c => if cfg.dynamicGrid then dyn.2.2 c else 0
  let res := addEnergyRes nDim (zeroMomentumRes nDim s.linSysRes v.node) v.node
    (cv.1 - cv.2)
  let jac1 := if cfg.implicitScheme ∧ cfg.dynamicGrid then
      AddBlock2Diag nVar s.jacobian v.node
        (fun r c => if r = nDim + 1 then jacRow c else 0)
    else s.jacobian
  let jac2 := if cfg.implicitScheme then deleteMomentumRows nDim nVar jac1 v.node else jac1
  { linSysRes := res
    jacobian := jac2
    velocityOld := setVelOld nDim s.velocityOld v.node
      (fun k => if cfg.dynamicGrid then geo.gridVel v.node k else 0)
    velResTrunc := zeroVelTrunc nDim s.velResTrunc v.node }

/-- CNSSolver::BC_HeatFlux_Wall (lines 550-663): fold of the per-vertex body
over the marker's vertices. -/
def BC_HeatFlux_Wall (cfg : BCConfig) (geo : BCGeometry) (nd : BCNodes)
    (s : BCState) : BCState :=
  geo.vertices.foldl (bcHeatFluxVertex cfg geo nd) s

/-- Thermal conductivity at the wall vertex (lines 779-781):
Cp (mu/Pr_lam + mu_t/Pr_turb). -/
def bcIsoThermalCond (cfg : BCConfig) (nd : BCNodes) (p : ℕ) : ℝ :=
  cfg.gamma / (cfg.gamma - 1) * cfg.gasConstant *
    (nd.lamVisc p / cfg.prandtlLam + nd.eddyVisc p / cfg.prandtlTurb)

/-- The wall temperature resolved at an isothermal/CHT wall vertex (lines
716-718 and 788-798): the CHT coupling (through the call of lines 793-794,
embedded by CHT.chtTwallUsed), the customizable per-vertex value, or the
configured isothermal temperature. -/
def bcIsoTwall (cfg : BCConfig) (geo : BCGeometry) (chtMode : Bool) (valMarker : ℕ)
    (v : BCVertex) (thermalConductivity distIJ There : ℝ) : Except String ℝ :=
  if chtMode then
    CHT.chtTwallUsed cfg.chtConfig valMarker v.idx thermalConductivity distIJ
      There cfg.temperatureRef
  else if cfg.pyCustom then .ok (geo.customTemperature v.idx)
  else .ok (cfg.isothermalTemperature / cfg.temperatureRef)

/-- The state update of one isothermal-wall vertex once the wall temperature
is known (lines 741-852). -/
def bcIsoApply (cfg : BCConfig) (geo : BCGeometry) (nd : BCNodes)
    (twall : ℝ) (s : BCState) (v : BCVertex) : BCState :=
  let nDim := cfg.nDim
  let nVar := nVarOf cfg
  let area := gnorm nDim v.normal
  let unitNormal : ℕ → ℝ := fun k => if k < nDim then -(v.normal k) / area else 0
  let pN := v.normalNeighbor
  let distIJ := gdist nDim (geo.coord v.node) (geo.coord pN)
  let k := bcIsoThermalCond cfg nd v.node
  let There := nd.temperature pN
  let dTdn := -(There - twall) / distIJ
  let density := nd.density v.node
  let vel2 := sqNormR nDim (fun d => nd.primitive v.node (d + 1))
  let dTdrho := 1 / density * (-twall + (cfg.gamma - 1) / cfg.gasConstant * (vel2 / 2))
  let thermalRow : ℕ → ℝ := fun c =>
    if c = 0 then k / distIJ * dTdrho * area
    else if c = nDim + 1 then
      k / distIJ * (cfg.gamma - 1) / (cfg.gasConstant * density) * area
    else 0
  let dyn := addDynamicGridContribution cfg geo nd v.node pN unitNormal area
  let resConv := 0 + (if cfg.dynamicGrid then dyn.1 else 0)
  let resVisc := k * dTdn * area + (if cfg.dynamicGrid then dyn.2.1 else 0)
  let jacRow : ℕ → ℝ := fun c =>
    thermalRow c + (if cfg.dynamicGrid then dyn.2.2 c else 0)
  let res := addEnergyRes nDim (zeroMomentumRes nDim s.linSysRes v.node) v.node
    (resConv - resVisc)
  let jac := if cfg.implicitScheme then
      deleteMomentumRows nDim nVar
        (AddBlock2Diag nVar s.jacobian v.node
          (fun r c => if r = nDim + 1 then jacRow c else 0)) v.node
    else s.jacobian
  { linSysRes := res
    jacobian := jac
    velocityOld := setVelOld nDim s.velocityOld v.node
      (fun k2 => if cfg.dynamicGrid then geo.gridVel v.node k2 else 0)
    velResTrunc := zeroVelTrunc nDim s.velResTrunc v.node }

/-- The loop body of BC_Isothermal_Wall_Generic for one boundary vertex
(lines 735-852); the fatal error of an unknown CHT coupling mode propagates
as Except.error. -/
def bcIsoVertexStep (cfg : BCConfig) (geo : BCGeometry) (nd : BCNodes)
    (chtMode : Bool) (valMarker : ℕ) (s : BCState) (v : BCVertex) :
    Except String BCState :=
  if geo.domain v.node = false then .ok s else
  (bcIsoTwall cfg geo chtMode valMarker v (bcIsoThermalCond cfg nd v.node)
      (gdist cfg.nDim (geo.coord v.node) (geo.coord v.normalNeighbor))
      (nd.temperature v.normalNeighbor)).map
    (fun twall => bcIsoApply cfg geo nd twall s v)

/-- CNSSolver::BC_Isothermal_Wall_Generic (lines 700-860). -/
def BC_Isothermal_Wall_Generic (cfg : BCConfig) (geo : BCGeometry) (nd : BCNodes)
    (chtMode : Bool) (valMarker : ℕ) (s : BCState) : Except String BCState :=
  geo.vertices.foldlM (bcIsoVertexStep cfg geo nd chtMode valMarker) s

/-- CNSSolver::BC_Isothermal_Wall (lines 862-866). -/
def BC_Isothermal_Wall (cfg : BCConfig) (geo : BCGeometry) (nd : BCNodes)
    (valMarker : ℕ) (s : BCState) : Except String BCState :=
  BC_Isothermal_Wall_Generic cfg geo nd false valMarker s

/-- CNSSolver::BC_ConjugateHeat_Interface (lines 868-872). -/
def BC_ConjugateHeat_Interface (cfg : BCConfig) (geo : BCGeometry) (nd : BCNodes)
    (valMarker : ℕ) (s : BCState) : Except String BCState :=
  BC_Isothermal_Wall_Generic cfg geo nd true valMarker s

/-- The wall temperature resolved in the non-CHT branches (always succeeds). -/
def twallNoCht (cfg : BCConfig) (geo : BCGeometry) (v : BCVertex) : ℝ :=
  if cfg.pyCustom then geo.customTemperature v.idx
  else cfg.isothermalTemperature / cfg.temperatureRef

/-- The pure per-vertex body of the isothermal wall routine without CHT. -/
def bcIsoVertexPure (cfg : BCConfig) (geo : BCGeometry) (nd : BCNodes)
    (s : BCState) (v : BCVertex) : BCState :=
  if geo.domain v.node = false then s
  else bcIsoApply cfg geo nd (twallNoCht cfg geo v) s v

/-- The pure fold equal to BC_Isothermal_Wall (proved below). -/
def isoPureFold (cfg : BCConfig) (geo : BCGeometry) (nd : BCNodes)
    (s : BCState) : BCState :=
  geo.vertices.foldl (bcIsoVertexPure cfg geo nd) s

/-- The strong-enforcement state of claim C4 at a wall point p: zero stored
old velocity, zero momentum residual rows, and (for the Jacobian) identity
momentum rows: zero off-diagonal entries and 1.0 on the diagonal. -/
def strongWallState (cfg : BCConfig) (s : BCState) (p : ℕ) : Prop :=
  (∀ d, d < cfg.nDim → s.velocityOld p d = 0) ∧
  (∀ w, 1 ≤ w → w ≤ cfg.nDim → s.linSysRes p w = 0) ∧
  (∀ iv, 1 ≤ iv → iv ≤ cfg.nDim →
    (∀ c, c ≠ p * nVarOf cfg + iv → s.jacobian (p * nVarOf cfg + iv) c = 0) ∧
    s.jacobian (p * nVarOf cfg + iv) (p * nVarOf cfg + iv) = 1)

/-- A concrete CHT configuration (unused by the non-CHT wall routines). -/
def bcExampleChtConfig : SU2.CHT.Config :=
  { kindCHTCoupling := SU2.CHT.Coupling.directTemperatureNeumannHeatflux
    viscosityRef := 1
    conjugateHeatVar := fun _ _ _ => 1 }

/-- A concrete wall-boundary configuration: two dimensions, static mesh,
implicit time integration, prescribed heat flux 3. -/
def bcExampleCfg : BCConfig :=
  { nDim := 2, gamma := 7 / 5, gasConstant := 1, prandtlLam := 72 / 100
    prandtlTurb := 9 / 10, temperatureRef := 1, wallHeatFlux := 3, heatFluxRef := 1
    isothermalTemperature := 2, pyCustom := false, dynamicGrid := false
    implicitScheme := true, chtConfig := bcExampleChtConfig }

/-- A concrete wall vertex at node 0 with interior neighbor 1. -/
def bcExampleVertex : BCVertex :=
  { idx := 0, node := 0, normalNeighbor := 1, normal := fun k => if k = 0 then 1 else 0 }

/-- A concrete geometry holding the single wall vertex. -/
def bcExampleGeo : BCGeometry :=
  { coord := fun p k => if p = 1 ∧ k = 1 then 1 else 0
    domain := fun _ => true
    gridVel := fun _ _ => 0
    customHeatFlux := fun _ => 0
    customTemperature := fun _ => 0
    vertices := [bcExampleVertex] }

/-- Concrete per-point solution fields. -/
def bcExampleNodes : BCNodes :=
  { density := fun _ => 1, pressure := fun _ => 1, temperature := fun _ => 1
    lamVisc := fun _ => 1, eddyVisc := fun _ => 0
    primitive := fun _ _ => 0, gradVel := fun _ _ _ => 0 }

/-- A concrete nonzero starting state for the accumulators. -/
def bcExampleState : BCState :=
  { linSysRes := fun _ _ => 2, jacobian := fun _ _ => 3
    velocityOld := fun _ _ => 4, velResTrunc := fun _ _ => 5 }

end SU2.WallBC

/-! ## Edge Viscous Flux Assembler (CNSSolver::Viscous_Residual) -/

namespace SU2.ViscRes

/-- An edge: its two endpoints and its normal. -/
structure Edge where
  i : ℕ
  j : ℕ
  normal : ℕ → ℝ

/-- Per-point data read by Viscous_Residual. -/
structure VRNodes where
  coord : ℕ → ℕ → ℝ
  primitive : ℕ → ℕ → ℝ
  secondary : ℕ → ℕ → ℝ
  gradPrim : ℕ → ℕ → ℕ → ℝ
  turbSol : ℕ → ℝ
  tauWall : ℕ → ℝ

/-- The inputs handed to the viscous flux kernel (the numerics object) by the
Set* calls of lines 248-275. The turbulent kinetic energy pair is only set
when needed (lines 268-270). -/
structure NumericsInput where
  coordI : ℕ → ℝ
  coordJ : ℕ → ℝ
  normal : ℕ → ℝ
  primI : ℕ → ℝ
  primJ : ℕ → ℝ
  secI : ℕ → ℝ
  secJ : ℕ → ℝ
  gradI : ℕ → ℕ → ℝ
  gradJ : ℕ → ℕ → ℝ
  tke : Option (ℝ × ℝ)
  tauWallI : ℝ
  tauWallJ : ℝ

/-- The output of the flux kernel numerics->ComputeResidual: the flux vector
and its two Jacobian blocks. -/
structure FluxResult where
  flux : ℕ → ℝ
  jacI : ℕ → ℕ → ℝ
  jacJ : ℕ → ℕ → ℝ

/-- The global accumulators touched by Viscous_Residual: the residual, the
Jacobian in scalar indexing (row = point * nVar + variable) and the per-edge
flux buffer of the reducer strategy. -/
structure VRState where
  linSysRes : ℕ → ℕ → ℝ
  jacobian : ℕ → ℕ → ℝ
  edgeFluxes : ℕ → ℕ → ℝ

/-- The gather phase of Viscous_Residual (lines 243-275). Note lines 274-275:
numerics->SetTauWall(nodes->GetTauWall(iPoint), nodes->GetTauWall(iPoint)) -
both slots receive the value cached at iPoint. -/
def buildNumericsInput (tkeNeeded : Bool) (nd : VRNodes) (e : Edge) : NumericsInput :=
  { coordI := nd.coord e.i
    coordJ := nd.coord e.j
    normal := e.normal
    primI := nd.primitive e.i
    primJ := nd.primitive e.j
    secI := nd.secondary e.i
    secJ := nd.secondary e.j
    gradI := nd.gradPrim e.i
    gradJ := nd.gradPrim e.j
    tke := if tkeNeeded then some (nd.turbSol e.i, nd.turbSol e.j) else none
    tauWallI := nd.tauWall e.i
    tauWallJ := nd.tauWall e.i }

/-- CSysVector::SubtractBlock - subtract a block vector from one point's
residual rows. -/
def SubtractResBlock (R : ℕ → ℕ → ℝ) (p : ℕ) (v : ℕ → ℝ) : ℕ → ℕ → ℝ :=
  fun q w => if q = p then R q w - v w else R q w

/-- CSysVector::AddBlock - add a block vector to one point's residual rows. -/
def AddResBlock (R : ℕ → ℕ → ℝ) (p : ℕ) (v : ℕ → ℝ) : ℕ → ℕ → ℝ :=
  fun q w => if q = p then R q w + v w else R q w

/-- Modelled from the spec: CSysMatrix::UpdateBlocksSub is not part of this
source unit; per the spec (section 4.2) the implicit update of an edge (i,j)
changes the corresponding off-diagonal Jacobian blocks by subtraction for i
and addition for j: block (i,j) -= jacJ and block (j,i) += jacI. -/
def UpdateBlocksSub (nVar : ℕ) (J : ℕ → ℕ → ℝ) (i j : ℕ)
    (jacI jacJ : ℕ → ℕ → ℝ) : ℕ → ℕ → ℝ :=
  fun r c =>
    if i * nVar ≤ r ∧ r < i * nVar + nVar ∧ j * nVar ≤ c ∧ c < j * nVar + nVar then
      J r c - jacJ (r - i * nVar) (c - j * nVar)
    else if j * nVar ≤ r ∧ r < j * nVar + nVar ∧ i * nVar ≤ c ∧ c < i * nVar + nVar then
      J r c + jacI (r - j * nVar) (c - i * nVar)
    else J r c

/-- CNSSolver::Viscous_Residual (lines 233-294), parameterized by the flux
kernel K (numerics->ComputeResidual, an external collaborator). The scatter
phase (lines 281-292) either buffers the flux per edge (reducer strategy) or
scatters it into the residual: subtracted at i, added at j. -/
def Viscous_Residual (K : NumericsInput → FluxResult)
    (implicitScheme reducer tkeNeeded : Bool) (nVar : ℕ) (nd : VRNodes)
    (iEdge : ℕ) (e : Edge) (s : VRState) : VRState :=
  let res := K (buildNumericsInput tkeNeeded nd e)
  if reducer then
    { s with
      edgeFluxes := SubtractResBlock s.edgeFluxes iEdge res.flux
      jacobian := if implicitScheme then
          UpdateBlocksSub nVar s.jacobian e.i e.j res.jacI res.jacJ
        else s.jacobian }
  else
    { s with
      linSysRes := AddResBlock (SubtractResBlock s.linSysRes e.i res.flux) e.j res.flux
      jacobian := if implicitScheme then
          UpdateBlocksSub nVar s.jacobian e.i e.j res.jacI res.jacJ
        else s.jacobian }

/-- A concrete flux kernel for exercising the assembler. -/
def vrExampleK : NumericsInput → FluxResult :=
  fun _ => { flux := fun _ => 1, jacI := fun _ _ => 2, jacJ := fun _ _ => 3 }

/-- A concrete edge from node 0 to node 1. -/
def vrExampleEdge : Edge := { i := 0, j := 1, normal := fun _ => 0 }

/-- Concrete per-point data whose wall-shear cache holds the point index. -/
def vrExampleNodes : VRNodes :=
  { coord := fun _ _ => 0, primitive := fun _ _ => 0, secondary := fun _ _ => 0
    gradPrim := fun _ _ _ => 0, turbSol := fun _ => 0
    tauWall := fun p => (p : ℝ) }

/-- A concrete nonzero starting state for the accumulators. -/
def vrExampleState : VRState :=
  { linSysRes := fun _ _ => 10, jacobian := fun _ _ => 20, edgeFluxes := fun _ _ => 30 }

end SU2.ViscRes

/-! ## Monitoring Aggregator (Buffet_Monitoring, Evaluate_ObjFunc) -/

namespace SU2.Buffet

/-- A boundary vertex with its skin-friction vector and stored normal. -/
structure BVertex where
  skinFriction : ℕ → ℝ
  normal : ℕ → ℝ

/-- A boundary marker: whether its kind is one of the viscous wall kinds of
line 328, whether it is monitored, its tag, and its vertices. -/
structure BMarker where
  isWall : Bool
  monitoring : Bool
  tag : ℕ
  vertices : List BVertex

/-- Configuration for the buffet sensor. -/
structure BConfig where
  nDim : ℕ
  velFS : ℕ → ℝ
  refArea : ℝ
  buffetK : ℝ
  buffetLambda : ℝ
  monitoringTags : List ℕ

/-- Freestream velocity magnitude (lines 306-309). -/
def velMagFS (cfg : BConfig) : ℝ := Real.sqrt (sqNormR cfg.nDim cfg.velFS)

/-- The buffet sensor of one vertex (lines 336-350): the normalized dot
product of skin friction with the freestream velocity fed into the smooth
Heaviside function. -/
def buffetSensor (cfg : BConfig) (v : BVertex) : ℝ :=
  let mag := Real.sqrt (sqNormR cfg.nDim v.skinFriction)
  let dot := dotR cfg.nDim v.skinFriction cfg.velFS
  1 / (1 + Real.exp (2 * cfg.buffetK * (dot / (mag * velMagFS cfg) + cfg.buffetLambda)))

/-- One vertex's contribution to a monitored marker's metric (line 359). -/
def vertexMetric (cfg : BConfig) (v : BVertex) : ℝ :=
  buffetSensor cfg v * gnorm cfg.nDim v.normal / cfg.refArea

/-- The metric integrated over one marker (lines 323, 354-361): zero unless
the marker is a wall kind with monitoring enabled. -/
def markerMetric (cfg : BConfig) (m : BMarker) : ℝ :=
  if m.isWall ∧ m.monitoring then (m.vertices.map (vertexMetric cfg)).sum else 0

/-- The outputs of Buffet_Monitoring on one mesh partition. -/
structure BuffetOut where
  sensors : List (List ℝ)
  markerMetrics : List ℝ
  totalMetric : ℝ
  surfaceMetrics : List ℝ

/-- The per-marker body of the loop of Buffet_Monitoring (lines 321-381):
wall markers store their sensors and, when monitored, integrate the metric,
accumulate the total and assign the matching monitoring surfaces; every other
marker only gets a zero metric (line 323). -/
def buffetStep (cfg : BConfig) (acc : BuffetOut) (m : BMarker) : BuffetOut :=
  if m.isWall then
    let metric := if m.monitoring then (m.vertices.map (vertexMetric cfg)).sum else 0
    { sensors := acc.sensors ++ [m.vertices.map (buffetSensor cfg)]
      markerMetrics := acc.markerMetrics ++ [metric]
      totalMetric := acc.totalMetric + (if m.monitoring then metric else 0)
      surfaceMetrics :=
        if m.monitoring then
          (acc.surfaceMetrics.zip cfg.monitoringTags).map
            (fun pc => if pc.2 = m.tag then metric else pc.1)
        else acc.surfaceMetrics }
  else
    { acc with markerMetrics := acc.markerMetrics ++ [0] }

/-- The initial accumulator of Buffet_Monitoring (lines 311-317): zero total
and zero per-surface metrics. -/
def buffetInit (cfg : BConfig) : BuffetOut :=
  { sensors := []
    markerMetrics := []
    totalMetric := 0
    surfaceMetrics := cfg.monitoringTags.map (fun _ => 0) }

/-- CNSSolver::Buffet_Monitoring before the collective reductions (lines
296-381): loop over the markers. -/
def Buffet_Monitoring (cfg : BConfig) (markers : List BMarker) : BuffetOut :=
  markers.foldl (buffetStep cfg) (buffetInit cfg)

/-- The MPI_SUM Allreduce of the total metric over the partitions
(lines 383-402). -/
def combineTotal (outs : List BuffetOut) : ℝ := (outs.map BuffetOut.totalMetric).sum

/-- The MPI_SUM Allreduce of one monitored surface's metric over the
partitions (line 398). -/
def combineSurface (outs : List BuffetOut) (k : ℕ) : ℝ :=
  (outs.map (fun o => o.surfaceMetrics.getD k 0)).sum

/-- A marker restricted to a subset of its vertices (one partition's share of
a split marker). -/
def restrictMarker (m : BMarker) (vs : List BVertex) : BMarker :=
  { m with vertices := vs }

/-- Objective kinds relevant to Evaluate_ObjFunc (line 422): the buffet
sensor objective or anything else. -/
inductive ObjKind where
  | buffet
  | other
deriving DecidableEq

/-- The switch of the loop body of Evaluate_ObjFunc (lines 422-428): only the
BUFFET_SENSOR objective contributes Weight * Surface_Buffet_Metric. An entry
is (kind, weight, surface metric). -/
def objAdd (acc : ℝ) (ent : ObjKind × ℝ × ℝ) : ℝ :=
  match ent.1 with
  | .buffet => acc + ent.2.1 * ent.2.2
  | .other => acc

/-- CNSSolver::Evaluate_ObjFunc (lines 406-431): starting from the value
produced by the parent class, fold the per-monitored-marker contributions. -/
def Evaluate_ObjFunc (base : ℝ) (entries : List (ObjKind × ℝ × ℝ)) : ℝ :=
  entries.foldl objAdd base

end SU2.Buffet

/-! ## Theorems -/

namespace SU2

/-- Block index disambiguation for scalar-indexed block matrices. -/
theorem block_index_eq {nVar p q a : ℕ} (ha : a < nVar)
    (h1 : q * nVar ≤ p * nVar + a) (h2 : p * nVar + a < q * nVar + nVar) : q = p := by
  have hpos : 0 < nVar := Nat.pos_of_ne_zero (by rintro rfl; exact absurd ha (Nat.not_lt_zero a))
  have hdiv : (p * nVar + a) / nVar = p := by
    rw [Nat.add_comm, Nat.add_mul_div_right _ _ hpos, Nat.div_eq_of_lt ha, Nat.zero_add]
  have hle : q ≤ (p * nVar + a) / nVar := by
    rw [Nat.le_div_iff_mul_le hpos]; exact h1
  have hlt : (p * nVar + a) / nVar < q + 1 := by
    rw [Nat.div_lt_iff_lt_mul hpos]; calc p * nVar + a < q * nVar + nVar := h2
      _ = (q + 1) * nVar := by ring
  omega

end SU2

namespace SU2.Prim

/-- The fold of SetPrimitive_Variables in closed form. -/
theorem setPrimitiveVariables_foldl (gamma gasConstant : ℚ) (turbActive tkeNeeded : Bool)
    (ns : List PNode) (acc : List PNode × ℕ) :
    ns.foldl
      (fun acc n =>
        (acc.1 ++ [updateNode gamma gasConstant turbActive tkeNeeded n],
         acc.2 + (if nodePhysical gamma gasConstant turbActive tkeNeeded n then 0 else 1)))
      acc =
      (acc.1 ++ ns.map (updateNode gamma gasConstant turbActive tkeNeeded),
       acc.2 + ns.countP (fun n => !(nodePhysical gamma gasConstant turbActive tkeNeeded n))) := by
  induction ns generalizing acc with
  | nil => simp
  | cons n rest ih =>
    rw [List.foldl_cons, ih]
    rcases h : nodePhysical gamma gasConstant turbActive tkeNeeded n with _ | _
    · simp only [List.countP_cons, h]
      simp
      omega
    · simp only [List.countP_cons, h]
      simp

end SU2.Prim

namespace SU2

/-- Claim C6: the primitive-state update entry point stores the
primitive/secondary tuples for every vertex, leaves every conserved state
untouched, and returns exactly the number of vertices whose computed state is
non-physical. -/
theorem c6_nonphysical_count (gamma gasConstant : ℚ) (turbActive tkeNeeded : Bool)
    (ns : List Prim.PNode) :
    (Prim.SetPrimitive_Variables gamma gasConstant turbActive tkeNeeded ns).2 =
      ns.countP (fun n => !(Prim.nodePhysical gamma gasConstant turbActive tkeNeeded n)) ∧
    (Prim.SetPrimitive_Variables gamma gasConstant turbActive tkeNeeded ns).1 =
      ns.map (Prim.updateNode gamma gasConstant turbActive tkeNeeded) ∧
    (Prim.SetPrimitive_Variables gamma gasConstant turbActive tkeNeeded ns).1.map
      Prim.PNode.cons = ns.map Prim.PNode.cons ∧
    (∀ n : Prim.PNode,
      (Prim.updateNode gamma gasConstant turbActive tkeNeeded n).cons = n.cons ∧
      (Prim.updateNode gamma gasConstant turbActive tkeNeeded n).prim =
        some (Prim.setPrimVar gamma gasConstant (Prim.effEddyVisc turbActive n)
          (Prim.effTurbKE turbActive tkeNeeded n) n.cons).1 ∧
      (Prim.updateNode gamma gasConstant turbActive tkeNeeded n).second =
        some (Prim.setSecondaryVar gamma n.cons)) := by
  have h := Prim.setPrimitiveVariables_foldl gamma gasConstant turbActive tkeNeeded ns ([], 0)
  refine ⟨?_, ?_, ?_, ?_⟩
  · rw [Prim.SetPrimitive_Variables, h]
    simp
  · rw [Prim.SetPrimitive_Variables, h]
    simp
  · rw [Prim.SetPrimitive_Variables, h]
    simp [Prim.updateNode, Function.comp]
  · intro n
    exact ⟨rfl, rfl, rfl⟩

/-- Claim C7: with a coupling mode outside the four supported ones, obtaining
the CHT wall temperature is a fatal error with a descriptive message, for
every marker, vertex and numeric input. -/
theorem c7_unknown_coupling_fatal (viscRef : ℝ) (conj : ℕ → ℕ → ℕ → ℝ)
    (marker vtx : ℕ) (thermalConductivity distIJ There Tref : ℝ) :
    CHT.GetCHTWallTemperature ⟨CHT.Coupling.unknownMode, viscRef, conj⟩ marker vtx
      thermalConductivity distIJ There Tref =
      Except.error "Unknown CHT coupling method." := rfl

/-- Claim C1 (code bug): at an averaged-temperature coupling with
thermal_conductivity = 2, dist_ij = 1, Viscosity_Ref = 1, There = 1,
Tconjugate = 3, conjugate heat-transfer coefficient 1 and Temperature_Ref = 1,
the wall temperature used by the boundary routine (whose call site passes
dist_ij and thermal_conductivity in swapped positions) is 7/3, while the
flux-weighted average stated by the claim, with
h_here = thermal_conductivity * Viscosity_Ref / dist_ij, is 5/3. -/
theorem c1_cht_wall_temperature_bug :
    CHT.chtTwallUsed
      ⟨CHT.Coupling.averagedTemperatureNeumannHeatflux, 1,
        fun _ _ pos => if pos = 0 then 3 else if pos = 2 then 1 else 0⟩
      0 0 2 1 1 1 = Except.ok ((7 : ℝ) / 3) ∧
    CHT.chtTwallClaim 1 2 1 1 3 1 = (5 : ℝ) / 3 ∧
    ((7 : ℝ) / 3) ≠ ((5 : ℝ) / 3) := by
  refine ⟨?_, ?_, by norm_num⟩
  · show Except.ok ((1 * (1 * 1 / 2) + 3 / 1 * 1) / (1 * 1 / 2 + 1)) =
      Except.ok ((7 : ℝ) / 3)
    norm_num
  · show (1 * (2 * 1 / 1) + 3 * 1) / (2 * 1 / 1 + 1) = (5 : ℝ) / 3
    norm_num

end SU2

namespace SU2.WallFunc

/-- Invariant of the wall-function while loop: the counter never exceeds the
cap plus one, the loop only exits without warning once the difference is at
or below the tolerance, and the warning fires exactly when the counter
reaches the cap plus one. -/
theorem wfLoopGo_spec (f : ℝ → ℝ) (tol relax : ℝ) (maxIter : ℕ) :
    ∀ fuel (tw told diff : ℝ) (counter : ℕ),
      fuel + counter = maxIter + 1 → counter ≤ maxIter →
      (wfLoopGo f tol relax maxIter fuel tw told diff counter).counter ≤ maxIter + 1 ∧
      ((wfLoopGo f tol relax maxIter fuel tw told diff counter).warned = true ∨
        (wfLoopGo f tol relax maxIter fuel tw told diff counter).diff ≤ tol) ∧
      ((wfLoopGo f tol relax maxIter fuel tw told diff counter).warned = false ∨
        (wfLoopGo f tol relax maxIter fuel tw told diff counter).counter = maxIter + 1) := by
  intro fuel
  induction fuel with
  | zero => intro tw told diff counter hsum hle; omega
  | succ fuel ih =>
    intro tw told diff counter hsum hle
    rw [wfLoopGo]
    by_cases hd : diff ≤ tol
    · simp only [if_pos hd]
      exact ⟨by omega, Or.inr hd, Or.inl (by trivial)⟩
    · simp only [if_neg hd]
      by_cases hc : maxIter < counter + 1
      · simp only [if_pos hc]
        exact ⟨by omega, Or.inl (by trivial), Or.inr (by omega)⟩
      · simp only [if_neg hc]
        exact ih (f told) (told + relax * (f told - told)) (|f told - told|)
          (counter + 1) (by omega) (by omega)

/-- With the step function x + 1 the difference stays at exactly 1 in
every iteration, so the loop runs until the cap fires. -/
theorem wfLoopGo_add_one (fuel : ℕ) :
    ∀ (counter : ℕ) (tw told : ℝ), fuel + counter = 11 → counter ≤ 10 →
      (wfLoopGo (fun x => x + 1) 1e-6 0.25 10 fuel tw told 1 counter).counter = 11 ∧
      (wfLoopGo (fun x => x + 1) 1e-6 0.25 10 fuel tw told 1 counter).warned = true := by
  induction fuel with
  | zero => intro counter tw told hsum hle; omega
  | succ fuel ih =>
    intro counter tw told hsum hle
    rw [wfLoopGo]
    have h1 : ¬((1 : ℝ) ≤ 1e-6) := by norm_num
    simp only [if_neg h1]
    by_cases hc : 10 < counter + 1
    · simp only [if_pos hc]
      exact ⟨by omega, by trivial⟩
    · simp only [if_neg hc]
      have habs : |told + 1 - told| = (1 : ℝ) := by
        rw [add_sub_cancel_left]
        exact abs_one
      rw [habs]
      exact ih (counter + 1) (told + 1) (told + 0.25 * (told + 1 - told))
        (by omega) (by omega)

end SU2.WallFunc

namespace SU2

/-- Claim C3 (amended): for every step function and seed, the wall-function
fixed-point loop with tolerance 1e-6, relaxation 0.25 and cap 10 executes at
most 11 loop-body iterations; when it stops without the diagnostic the last
absolute change is at or below the tolerance; and the non-fatal diagnostic
fires exactly when the counter reaches 11, in which case the last computed
wall shear stress is kept as the result. -/
theorem c3_loop_cap (f : ℝ → ℝ) (seed : ℝ) :
    (WallFunc.wfLoop f 1e-6 0.25 10 seed).counter ≤ 11 ∧
    ((WallFunc.wfLoop f 1e-6 0.25 10 seed).warned = true ∨
      (WallFunc.wfLoop f 1e-6 0.25 10 seed).diff ≤ 1e-6) ∧
    ((WallFunc.wfLoop f 1e-6 0.25 10 seed).warned = false ∨
      (WallFunc.wfLoop f 1e-6 0.25 10 seed).counter = 11) := by
  have h := WallFunc.wfLoopGo_spec f 1e-6 0.25 10 11 seed seed 1 0 rfl (by omega)
  exact h

/-- Claim C3 counterexample: with the step function x + 1 (each update moves
the wall shear stress by one, so the change never drops below the tolerance)
and seed 0, the loop body executes 11 times - not at most 10 - and the
diagnostic fires. -/
theorem c3_counterexample :
    (WallFunc.wfLoop (fun x => x + 1) 1e-6 0.25 10 0).counter = 11 ∧
    (WallFunc.wfLoop (fun x => x + 1) 1e-6 0.25 10 0).warned = true :=
  WallFunc.wfLoopGo_add_one 11 0 0 0 rfl (by omega)

end SU2

namespace SU2.WallFunc

/-- A vertex step only changes the wall-shear-stress cache. -/
theorem wfVertexStep_shape (cfg : WFConfig) (d : WFData) (v : WFVertex) :
    wfVertexStep cfg d v = { d with tauWall := (wfVertexStep cfg d v).tauWall } := by
  rw [wfVertexStep]
  by_cases h : d.domain v.node
  · simp only [if_pos h]
  · simp only [if_neg h]

/-- The per-vertex solve never reads the wall-shear-stress cache: replacing
the cache leaves the seed, the step function and the stored value
unchanged. -/
theorem setTauWallVertexValue_cache_free (cfg : WFConfig) (d : WFData)
    (t : ℕ → ℝ) (v : WFVertex) :
    wfSeed cfg { d with tauWall := t } v = wfSeed cfg d v ∧
    wfStepFun cfg { d with tauWall := t } v = wfStepFun cfg d v ∧
    setTauWallVertexValue cfg { d with tauWall := t } v =
      setTauWallVertexValue cfg d v :=
  ⟨rfl, rfl, rfl⟩

/-- A fold of vertex steps only changes the wall-shear-stress cache. -/
theorem foldl_wfVertexStep_shape (cfg : WFConfig) (vs : List WFVertex) :
    ∀ d : WFData, vs.foldl (wfVertexStep cfg) d =
      { d with tauWall := (vs.foldl (wfVertexStep cfg) d).tauWall } := by
  induction vs with
  | nil => intro d; rfl
  | cons w rest ih =>
    intro d
    rw [List.foldl_cons, ih (wfVertexStep cfg d w), wfVertexStep_shape cfg d w]

/-- A fold of vertex steps leaves the cache untouched at nodes it does not
visit. -/
theorem foldl_wfVertexStep_untouched (cfg : WFConfig) (vs : List WFVertex) :
    ∀ (d : WFData) (p : ℕ), p ∉ vs.map WFVertex.node →
      (vs.foldl (wfVertexStep cfg) d).tauWall p = d.tauWall p := by
  induction vs with
  | nil => intro d p _; rfl
  | cons w rest ih =>
    intro d p hp
    rw [List.mem_map] at hp
    push_neg at hp
    have hpw : p ≠ w.node := by
      intro h
      exact hp w (List.mem_cons_self w rest) h.symm
    rw [List.foldl_cons, ih (wfVertexStep cfg d w) p]
    · rw [wfVertexStep]
      by_cases h : d.domain w.node
      · simp only [if_pos h, updFun, if_neg hpw]
      · simp only [if_neg h]
    · rw [List.mem_map]
      push_neg
      intro x hx
      exact fun h => hp x (List.mem_cons_of_mem w hx) h

/-- A fold of vertex steps stores, at each visited owned node (the visited
nodes being distinct), the value computed from the data it started from. -/
theorem foldl_wfVertexStep_value (cfg : WFConfig) (vs : List WFVertex) :
    ∀ (d : WFData) (v : WFVertex), v ∈ vs → (vs.map WFVertex.node).Nodup →
      d.domain v.node = true →
      (vs.foldl (wfVertexStep cfg) d).tauWall v.node = setTauWallVertexValue cfg d v := by
  induction vs with
  | nil => intro d v hv; exact absurd hv (List.not_mem_nil v)
  | cons w rest ih =>
    intro d v hv hnd hdom
    rw [List.map_cons, List.nodup_cons] at hnd
    rcases List.mem_cons.mp hv with h | h
    · subst h
      rw [List.foldl_cons, foldl_wfVertexStep_untouched cfg rest (wfVertexStep cfg d v)
        v.node hnd.1]
      rw [wfVertexStep, if_pos hdom]
      simp [updFun]
    · have hstep := wfVertexStep_shape cfg d w
      have hdom2 : (wfVertexStep cfg d w).domain v.node = true := by
        rw [hstep]; exact hdom
      rw [List.foldl_cons, ih (wfVertexStep cfg d w) v h hnd.2 hdom2]
      conv_lhs => rw [hstep]
      exact (setTauWallVertexValue_cache_free cfg d _ v).2.2

/-- SetTauWall_WF leaves the cache untouched at nodes of no processed
vertex. -/
theorem setTauWall_WF_untouched (cfg : WFConfig) (markers : List WFMarker) :
    ∀ (d : WFData) (p : ℕ), p ∉ (processedVertices markers).map WFVertex.node →
      (SetTauWall_WF cfg markers d).tauWall p = d.tauWall p := by
  induction markers with
  | nil => intro d p _; rfl
  | cons m rest ih =>
    intro d p hp
    have hsplit : processedVertices (m :: rest) =
        (if m.viscousWall then m.vertices else []) ++ processedVertices rest := rfl
    rw [hsplit, List.map_append] at hp
    have hp1 : p ∉ (if m.viscousWall then m.vertices else []).map WFVertex.node :=
      fun h => hp (List.mem_append.mpr (Or.inl h))
    have hp2 : p ∉ (processedVertices rest).map WFVertex.node :=
      fun h => hp (List.mem_append.mpr (Or.inr h))
    rw [SetTauWall_WF, List.foldl_cons]
    by_cases hw : m.viscousWall
    · simp only [if_pos hw]
      rw [if_pos hw] at hp1
      have := ih (m.vertices.foldl (wfVertexStep cfg) d) p hp2
      rw [SetTauWall_WF] at this
      rw [this, foldl_wfVertexStep_untouched cfg m.vertices d p hp1]
    · simp only [if_neg hw]
      have := ih d p hp2
      rw [SetTauWall_WF] at this
      rw [this]

/-- SetTauWall_WF only changes the wall-shear-stress cache. -/
theorem setTauWall_WF_shape (cfg : WFConfig) (markers : List WFMarker) :
    ∀ d : WFData, SetTauWall_WF cfg markers d =
      { d with tauWall := (SetTauWall_WF cfg markers d).tauWall } := by
  induction markers with
  | nil => intro d; rfl
  | cons m rest ih =>
    intro d
    rw [SetTauWall_WF, List.foldl_cons]
    by_cases hw : m.viscousWall
    · simp only [if_pos hw]
      have h1 := foldl_wfVertexStep_shape cfg m.vertices d
      have h2 := ih (m.vertices.foldl (wfVertexStep cfg) d)
      rw [SetTauWall_WF] at h2
      rw [h2, h1]
    · simp only [if_neg hw]
      have h2 := ih d
      rw [SetTauWall_WF] at h2
      rw [h2]

/-- SetTauWall_WF stores, at each owned vertex of each viscous wall marker
(processed nodes being distinct), the value computed from the data the call
started from. -/
theorem setTauWall_WF_value (cfg : WFConfig) (markers : List WFMarker) :
    ∀ (d : WFData) (m : WFMarker) (v : WFVertex), m ∈ markers →
      m.viscousWall = true → v ∈ m.vertices →
      ((processedVertices markers).map WFVertex.node).Nodup →
      d.domain v.node = true →
      (SetTauWall_WF cfg markers d).tauWall v.node = setTauWallVertexValue cfg d v := by
  induction markers with
  | nil => intro d m v hm; exact absurd hm (List.not_mem_nil m)
  | cons m0 rest ih =>
    intro d m v hm hvw hv hnd hdom
    have hsplit : processedVertices (m0 :: rest) =
        (if m0.viscousWall then m0.vertices else []) ++ processedVertices rest := rfl
    rw [hsplit, List.map_append, List.nodup_append] at hnd
    rw [SetTauWall_WF, List.foldl_cons]
    rcases List.mem_cons.mp hm with h | h
    · subst h
      simp only [if_pos hvw]
      have hnd1 : (m.vertices.map WFVertex.node).Nodup := by
        have := hnd.1; rwa [if_pos hvw] at this
      have hinner := foldl_wfVertexStep_value cfg m.vertices d v hv hnd1 hdom
      have houter := setTauWall_WF_untouched cfg rest
        (m.vertices.foldl (wfVertexStep cfg) d) v.node ?hnode
      · rw [SetTauWall_WF] at houter
        rw [houter, hinner]
      case hnode =>
        intro hmem
        have hvn : v.node ∈ (if m.viscousWall then m.vertices else []).map
            WFVertex.node := by
          rw [if_pos hvw]
          exact List.mem_map.mpr ⟨v, hv, rfl⟩
        exact hnd.2.2 hvn hmem
    · by_cases hw : m0.viscousWall
      · simp only [if_pos hw]
        have d2 := m0.vertices.foldl (wfVertexStep cfg) d
        have hshape := foldl_wfVertexStep_shape cfg m0.vertices d
        have hdom2 : (m0.vertices.foldl (wfVertexStep cfg) d).domain v.node = true := by
          rw [hshape]; exact hdom
        have := ih (m0.vertices.foldl (wfVertexStep cfg) d) m v h hvw hv hnd.2.1 hdom2
        rw [SetTauWall_WF] at this
        rw [this]
        conv_lhs => rw [hshape]
        exact (setTauWallVertexValue_cache_free cfg d _ v).2.2
      · simp only [if_neg hw]
        have := ih d m v h hvw hv hnd.2.1 hdom
        rw [SetTauWall_WF] at this
        rw [this]

end SU2.WallFunc

namespace SU2

/-- Claim C2 (amended): at every owned vertex of every viscous wall marker,
the wall-function solve is seeded with the magnitude of the wall-tangential
traction computed from the current velocity gradient - the solve never reads
the cached wall shear stress - and the value left by the fixed-point loop is
stored back into the per-vertex cache. -/
theorem c2_wallfunction_seed_and_store (cfg : WallFunc.WFConfig)
    (markers : List WallFunc.WFMarker) (d : WallFunc.WFData)
    (m : WallFunc.WFMarker) (v : WallFunc.WFVertex)
    (hm : m ∈ markers) (hvw : m.viscousWall = true) (hv : v ∈ m.vertices)
    (hnd : ((WallFunc.processedVertices markers).map WallFunc.WFVertex.node).Nodup)
    (hdom : d.domain v.node = true) :
    (WallFunc.SetTauWall_WF cfg markers d).tauWall v.node =
      (WallFunc.wfLoop (WallFunc.wfStepFun cfg d v) 1e-6 0.25 10
        (WallFunc.wfSeed cfg d v)).tauWall ∧
    (∀ t : ℕ → ℝ,
      WallFunc.wfSeed cfg { d with tauWall := t } v = WallFunc.wfSeed cfg d v ∧
      WallFunc.wfStepFun cfg { d with tauWall := t } v = WallFunc.wfStepFun cfg d v) := by
  constructor
  · exact WallFunc.setTauWall_WF_value cfg markers d m v hm hvw hv hnd hdom
  · intro t
    exact ⟨rfl, rfl⟩

/-- Witness for claim C2's amended theorem at the concrete one-vertex
configuration. -/
theorem c2_wallfunction_witness :
    (WallFunc.SetTauWall_WF WallFunc.wfExampleCfg WallFunc.wfExampleMarkers
        WallFunc.wfExampleData).tauWall WallFunc.wfExampleVertex.node =
      (WallFunc.wfLoop
        (WallFunc.wfStepFun WallFunc.wfExampleCfg WallFunc.wfExampleData
          WallFunc.wfExampleVertex) 1e-6 0.25 10
        (WallFunc.wfSeed WallFunc.wfExampleCfg WallFunc.wfExampleData
          WallFunc.wfExampleVertex)).tauWall ∧
    WallFunc.wfSeed WallFunc.wfExampleCfg
        { WallFunc.wfExampleData with tauWall := fun _ => 42 }
        WallFunc.wfExampleVertex =
      WallFunc.wfSeed WallFunc.wfExampleCfg WallFunc.wfExampleData
        WallFunc.wfExampleVertex := by
  have h := c2_wallfunction_seed_and_store WallFunc.wfExampleCfg
    WallFunc.wfExampleMarkers WallFunc.wfExampleData
    { viscousWall := true, vertices := [WallFunc.wfExampleVertex] }
    WallFunc.wfExampleVertex
    (List.mem_singleton.mpr rfl) rfl (List.mem_singleton.mpr rfl)
    (by simp [WallFunc.processedVertices, WallFunc.wfExampleMarkers]) rfl
  exact ⟨h.1, (h.2 (fun _ => 42)).1⟩

/-- Claim C2 counterexample: at the concrete data set whose velocity gradient
vanishes and whose cache holds 5, the seed of the wall-function solve is 0,
not the cached value 5 - the solve is not seeded with the cached wall shear
stress of the previous outer iteration. -/
theorem c2_counterexample :
    WallFunc.wfSeed WallFunc.wfExampleCfg WallFunc.wfExampleData
      WallFunc.wfExampleVertex = 0 ∧
    WallFunc.wfExampleData.tauWall WallFunc.wfExampleVertex.node = 5 ∧
    WallFunc.wfSeed WallFunc.wfExampleCfg WallFunc.wfExampleData
        WallFunc.wfExampleVertex ≠
      WallFunc.wfExampleData.tauWall WallFunc.wfExampleVertex.node := by
  have hseed : WallFunc.wfSeed WallFunc.wfExampleCfg WallFunc.wfExampleData
      WallFunc.wfExampleVertex = 0 := by
    rw [WallFunc.wfSeed, WallFunc.wfTauTangent]
    simp only [WallFunc.wfExampleCfg, WallFunc.wfExampleData, WallFunc.wfExampleVertex,
      stressTensor, dotR, gnorm, sqNormR]
    norm_num [Finset.sum_range_succ]
  refine ⟨hseed, rfl, ?_⟩
  rw [hseed]
  norm_num [WallFunc.wfExampleData]

end SU2

namespace SU2.WallBC

/-- Distinct points own disjoint scalar row indices. -/
theorem scalar_index_ne {nVar p q iv jv : ℕ} (hpq : p ≠ q) (hiv : iv < nVar)
    (hjv : jv < nVar) : p * nVar + iv ≠ q * nVar + jv := by
  intro h
  apply hpq
  have h1 : q * nVar ≤ p * nVar + iv := by rw [h]; omega
  have h2 : p * nVar + iv < q * nVar + nVar := by rw [h]; omega
  exact (block_index_eq hiv h1 h2).symm

/-- A scalar row of one point lies outside the diagonal block of another. -/
theorem row_not_in_block {nVar p q iv : ℕ} (hpq : p ≠ q) (hiv : iv < nVar) :
    ¬(q * nVar ≤ p * nVar + iv ∧ p * nVar + iv < q * nVar + nVar) := by
  rintro ⟨h1, h2⟩
  exact hpq (block_index_eq hiv h1 h2).symm

theorem setVelOld_same {nDim : ℕ} (V : ℕ → ℕ → ℝ) (p : ℕ) (vec : ℕ → ℝ) {d : ℕ}
    (hd : d < nDim) : setVelOld nDim V p vec p d = vec d := by
  simp [setVelOld, hd]

theorem setVelOld_other {nDim : ℕ} (V : ℕ → ℕ → ℝ) (p : ℕ) (vec : ℕ → ℝ) {q d : ℕ}
    (h : q ≠ p) : setVelOld nDim V p vec q d = V q d := by
  simp [setVelOld, h]

theorem zeroMomentumRes_same {nDim : ℕ} (R : ℕ → ℕ → ℝ) (p : ℕ) {w : ℕ}
    (h1 : 1 ≤ w) (h2 : w ≤ nDim) : zeroMomentumRes nDim R p p w = 0 := by
  simp [zeroMomentumRes, h1, h2]

theorem zeroMomentumRes_other {nDim : ℕ} (R : ℕ → ℕ → ℝ) (p : ℕ) {q w : ℕ}
    (h : q ≠ p) : zeroMomentumRes nDim R p q w = R q w := by
  simp [zeroMomentumRes, h]

theorem zeroMomentumRes_energy {nDim : ℕ} (R : ℕ → ℕ → ℝ) (p q : ℕ) :
    zeroMomentumRes nDim R p q (nDim + 1) = R q (nDim + 1) := by
  rw [zeroMomentumRes, if_neg]
  rintro ⟨_, _, h3⟩
  omega

theorem addEnergyRes_same {nDim : ℕ} (R : ℕ → ℕ → ℝ) (p : ℕ) (x : ℝ) :
    addEnergyRes nDim R p x p (nDim + 1) = R p (nDim + 1) + x := by
  simp [addEnergyRes]

theorem addEnergyRes_momentum {nDim : ℕ} (R : ℕ → ℕ → ℝ) (p : ℕ) (x : ℝ) {q w : ℕ}
    (h2 : w ≤ nDim) : addEnergyRes nDim R p x q w = R q w := by
  rw [addEnergyRes, if_neg]
  rintro ⟨_, h3⟩
  omega

theorem addEnergyRes_other {nDim : ℕ} (R : ℕ → ℕ → ℝ) (p : ℕ) (x : ℝ) {q w : ℕ}
    (h : q ≠ p) : addEnergyRes nDim R p x q w = R q w := by
  simp [addEnergyRes, h]

theorem AddBlock2Diag_row_out {nVar : ℕ} (J : ℕ → ℕ → ℝ) (q : ℕ) (B : ℕ → ℕ → ℝ)
    {r : ℕ} (h : ¬(q * nVar ≤ r ∧ r < q * nVar + nVar)) (c : ℕ) :
    AddBlock2Diag nVar J q B r c = J r c := by
  rw [AddBlock2Diag, if_neg]
  rintro ⟨h1, h2, _, _⟩
  exact h ⟨h1, h2⟩

/-- Evaluation of a fold of single-row deletions. -/
theorem foldl_DeleteValsRowi_eval (rows : List ℕ) :
    ∀ (J : ℕ → ℕ → ℝ) (r c : ℕ),
      (rows.foldl DeleteValsRowi J) r c =
        if r ∈ rows then (if c = r then 1 else 0) else J r c := by
  induction rows with
  | nil => intro J r c; simp
  | cons w rest ih =>
    intro J r c
    rw [List.foldl_cons, ih]
    by_cases hr : r ∈ rest
    · simp [hr, List.mem_cons]
    · by_cases hw : r = w
      · subst hw
        simp [hr, DeleteValsRowi]
      · simp [hr, hw, DeleteValsRowi, List.mem_cons]

/-- deleteMomentumRows turns each momentum row of the point into an identity
row. -/
theorem deleteMomentumRows_in {nDim nVar : ℕ} (J : ℕ → ℕ → ℝ) (p : ℕ) {iv : ℕ}
    (h1 : 1 ≤ iv) (h2 : iv ≤ nDim) (c : ℕ) :
    deleteMomentumRows nDim nVar J p (p * nVar + iv) c =
      if c = p * nVar + iv then 1 else 0 := by
  rw [deleteMomentumRows, ← List.foldl_map (fun iDim => p * nVar + (iDim + 1))
    DeleteValsRowi, foldl_DeleteValsRowi_eval, if_pos]
  exact List.mem_map.mpr ⟨iv - 1, List.mem_range.mpr (by omega), by omega⟩

/-- deleteMomentumRows leaves every other row unchanged. -/
theorem deleteMomentumRows_out {nDim nVar : ℕ} (J : ℕ → ℕ → ℝ) (p : ℕ) {r : ℕ}
    (h : ∀ iv, 1 ≤ iv → iv ≤ nDim → r ≠ p * nVar + iv) (c : ℕ) :
    deleteMomentumRows nDim nVar J p r c = J r c := by
  rw [deleteMomentumRows, ← List.foldl_map (fun iDim => p * nVar + (iDim + 1))
    DeleteValsRowi, foldl_DeleteValsRowi_eval, if_neg]
  intro hmem
  rcases List.mem_map.mp hmem with ⟨i, hi, heq⟩
  have hi2 := List.mem_range.mp hi
  exact h (i + 1) (by omega) (by omega) heq.symm

end SU2.WallBC

namespace SU2.WallBC

theorem bcHeatFluxVertex_not_owned {cfg : BCConfig} {geo : BCGeometry} {nd : BCNodes}
    {s : BCState} {v : BCVertex} (hdom : geo.domain v.node = false) :
    bcHeatFluxVertex cfg geo nd s v = s := by
  rw [bcHeatFluxVertex]
  simp [hdom]

theorem bcHeatFluxVertex_velocityOld {cfg : BCConfig} {geo : BCGeometry} {nd : BCNodes}
    {s : BCState} {v : BCVertex} (hdom : geo.domain v.node = true) :
    (bcHeatFluxVertex cfg geo nd s v).velocityOld =
      setVelOld cfg.nDim s.velocityOld v.node
        (fun k => if cfg.dynamicGrid then geo.gridVel v.node k else 0) := by
  rw [bcHeatFluxVertex]
  simp [hdom]

theorem bcHeatFluxVertex_linSysRes {cfg : BCConfig} {geo : BCGeometry} {nd : BCNodes}
    {s : BCState} {v : BCVertex} (hdom : geo.domain v.node = true) :
    (bcHeatFluxVertex cfg geo nd s v).linSysRes =
      addEnergyRes cfg.nDim (zeroMomentumRes cfg.nDim s.linSysRes v.node) v.node
        ((heatFluxConvVisc cfg geo nd v).1 - (heatFluxConvVisc cfg geo nd v).2) := by
  rw [bcHeatFluxVertex]
  simp [hdom]

theorem bcHeatFluxVertex_jacobian_static {cfg : BCConfig} {geo : BCGeometry}
    {nd : BCNodes} {s : BCState} {v : BCVertex} (hdom : geo.domain v.node = true)
    (himp : cfg.implicitScheme = true) (hdyn : cfg.dynamicGrid = false) :
    (bcHeatFluxVertex cfg geo nd s v).jacobian =
      deleteMomentumRows cfg.nDim (nVarOf cfg) s.jacobian v.node := by
  rw [bcHeatFluxVertex]
  simp [hdom, himp, hdyn]

theorem bcIsoApply_velocityOld (cfg : BCConfig) (geo : BCGeometry) (nd : BCNodes)
    (twall : ℝ) (s : BCState) (v : BCVertex) :
    (bcIsoApply cfg geo nd twall s v).velocityOld =
      setVelOld cfg.nDim s.velocityOld v.node
        (fun k => if cfg.dynamicGrid then geo.gridVel v.node k else 0) := rfl

theorem bcIsoApply_linSysRes (cfg : BCConfig) (geo : BCGeometry) (nd : BCNodes)
    (twall : ℝ) (s : BCState) (v : BCVertex) :
    ∃ x : ℝ, (bcIsoApply cfg geo nd twall s v).linSysRes =
      addEnergyRes cfg.nDim (zeroMomentumRes cfg.nDim s.linSysRes v.node) v.node x :=
  ⟨_, rfl⟩

theorem bcIsoApply_jacobian {cfg : BCConfig} (geo : BCGeometry) (nd : BCNodes)
    (twall : ℝ) (s : BCState) (v : BCVertex) (himp : cfg.implicitScheme = true) :
    ∃ B : ℕ → ℕ → ℝ, (bcIsoApply cfg geo nd twall s v).jacobian =
      deleteMomentumRows cfg.nDim (nVarOf cfg)
        (AddBlock2Diag (nVarOf cfg) s.jacobian v.node B) v.node := by
  rw [bcIsoApply]
  simp only [himp, if_true]
  exact ⟨_, rfl⟩

theorem bcIsoVertexPure_owned {cfg : BCConfig} {geo : BCGeometry} {nd : BCNodes}
    {s : BCState} {v : BCVertex} (hdom : geo.domain v.node = true) :
    bcIsoVertexPure cfg geo nd s v = bcIsoApply cfg geo nd (twallNoCht cfg geo v) s v := by
  rw [bcIsoVertexPure]
  simp [hdom]

theorem bcIsoVertexPure_not_owned {cfg : BCConfig} {geo : BCGeometry} {nd : BCNodes}
    {s : BCState} {v : BCVertex} (hdom : geo.domain v.node = false) :
    bcIsoVertexPure cfg geo nd s v = s := by
  rw [bcIsoVertexPure]
  simp [hdom]

/-- The heat-flux wall vertex body establishes the strong wall state at its
own node (static mesh, implicit scheme). -/
theorem bcHeatFluxVertex_establish (cfg : BCConfig) (geo : BCGeometry) (nd : BCNodes)
    (s : BCState) (v : BCVertex) (himp : cfg.implicitScheme = true)
    (hdyn : cfg.dynamicGrid = false) (hdom : geo.domain v.node = true) :
    strongWallState cfg (bcHeatFluxVertex cfg geo nd s v) v.node := by
  unfold strongWallState
  refine ⟨?_, ?_, ?_⟩
  · intro d hd
    rw [bcHeatFluxVertex_velocityOld hdom, setVelOld_same _ _ _ hd, hdyn]
    simp
  · intro w h1 h2
    rw [bcHeatFluxVertex_linSysRes hdom, addEnergyRes_momentum _ _ _ h2,
      zeroMomentumRes_same _ _ h1 h2]
  · intro iv h1 h2
    rw [bcHeatFluxVertex_jacobian_static hdom himp hdyn]
    constructor
    · intro c hc
      rw [deleteMomentumRows_in _ _ h1 h2, if_neg hc]
    · rw [deleteMomentumRows_in _ _ h1 h2, if_pos rfl]

/-- The isothermal wall vertex body establishes the strong wall state at its
own node for any wall temperature (static mesh, implicit scheme). -/
theorem bcIsoApply_establish (cfg : BCConfig) (geo : BCGeometry) (nd : BCNodes)
    (twall : ℝ) (s : BCState) (v : BCVertex) (himp : cfg.implicitScheme = true)
    (hdyn : cfg.dynamicGrid = false) :
    strongWallState cfg (bcIsoApply cfg geo nd twall s v) v.node := by
  obtain ⟨B, hB⟩ := bcIsoApply_jacobian geo nd twall s v himp
  obtain ⟨x, hx⟩ := bcIsoApply_linSysRes cfg geo nd twall s v
  unfold strongWallState
  refine ⟨?_, ?_, ?_⟩
  · intro d hd
    rw [bcIsoApply_velocityOld, setVelOld_same _ _ _ hd, hdyn]
    simp
  · intro w h1 h2
    rw [hx, addEnergyRes_momentum _ _ _ h2, zeroMomentumRes_same _ _ h1 h2]
  · intro iv h1 h2
    rw [hB]
    constructor
    · intro c hc
      rw [deleteMomentumRows_in _ _ h1 h2, if_neg hc]
    · rw [deleteMomentumRows_in _ _ h1 h2, if_pos rfl]

/-- The heat-flux wall vertex body preserves the strong wall state at every
node (static mesh, implicit scheme). -/
theorem bcHeatFluxVertex_preserves (cfg : BCConfig) (geo : BCGeometry) (nd : BCNodes)
    (s : BCState) (w : BCVertex) (p : ℕ) (himp : cfg.implicitScheme = true)
    (hdyn : cfg.dynamicGrid = false) (h : strongWallState cfg s p) :
    strongWallState cfg (bcHeatFluxVertex cfg geo nd s w) p := by
  by_cases hdom : geo.domain w.node = true
  · by_cases hwp : w.node = p
    · subst hwp
      exact bcHeatFluxVertex_establish cfg geo nd s w himp hdyn hdom
    · have hpw : p ≠ w.node := fun he => hwp he.symm
      unfold strongWallState at h ⊢
      refine ⟨?_, ?_, ?_⟩
      · intro d hd
        rw [bcHeatFluxVertex_velocityOld hdom, setVelOld_other _ _ _ hpw]
        exact h.1 d hd
      · intro wv h1 h2
        rw [bcHeatFluxVertex_linSysRes hdom, addEnergyRes_other _ _ _ hpw,
          zeroMomentumRes_other _ _ hpw]
        exact h.2.1 wv h1 h2
      · intro iv h1 h2
        have hiv : iv < nVarOf cfg := by rw [nVarOf]; omega
        rw [bcHeatFluxVertex_jacobian_static hdom himp hdyn]
        have hout : ∀ jv, 1 ≤ jv → jv ≤ cfg.nDim →
            p * nVarOf cfg + iv ≠ w.node * nVarOf cfg + jv := by
          intro jv hj1 hj2
          exact scalar_index_ne hpw hiv (by rw [nVarOf]; omega)
        constructor
        · intro c hc
          rw [deleteMomentumRows_out _ _ hout]
          exact (h.2.2 iv h1 h2).1 c hc
        · rw [deleteMomentumRows_out _ _ hout]
          exact (h.2.2 iv h1 h2).2
  · have hfalse : geo.domain w.node = false := by
      revert hdom; cases geo.domain w.node <;> simp
    rw [bcHeatFluxVertex_not_owned hfalse]
    exact h

/-- The isothermal wall vertex body preserves the strong wall state at every
node (static mesh, implicit scheme). -/
theorem bcIsoVertexPure_preserves (cfg : BCConfig) (geo : BCGeometry) (nd : BCNodes)
    (s : BCState) (w : BCVertex) (p : ℕ) (himp : cfg.implicitScheme = true)
    (hdyn : cfg.dynamicGrid = false) (h : strongWallState cfg s p) :
    strongWallState cfg (bcIsoVertexPure cfg geo nd s w) p := by
  by_cases hdom : geo.domain w.node = true
  · rw [bcIsoVertexPure_owned hdom]
    by_cases hwp : w.node = p
    · subst hwp
      exact bcIsoApply_establish cfg geo nd _ s w himp hdyn
    · have hpw : p ≠ w.node := fun he => hwp he.symm
      obtain ⟨B, hB⟩ := bcIsoApply_jacobian geo nd (twallNoCht cfg geo w) s w himp
      obtain ⟨x, hx⟩ := bcIsoApply_linSysRes cfg geo nd (twallNoCht cfg geo w) s w
      unfold strongWallState at h ⊢
      refine ⟨?_, ?_, ?_⟩
      · intro d hd
        rw [bcIsoApply_velocityOld, setVelOld_other _ _ _ hpw]
        exact h.1 d hd
      · intro wv h1 h2
        rw [hx, addEnergyRes_other _ _ _ hpw, zeroMomentumRes_other _ _ hpw]
        exact h.2.1 wv h1 h2
      · intro iv h1 h2
        have hiv : iv < nVarOf cfg := by rw [nVarOf]; omega
        rw [hB]
        have hout : ∀ jv, 1 ≤ jv → jv ≤ cfg.nDim →
            p * nVarOf cfg + iv ≠ w.node * nVarOf cfg + jv := by
          intro jv hj1 hj2
          exact scalar_index_ne hpw hiv (by rw [nVarOf]; omega)
        have hblk : ¬(w.node * nVarOf cfg ≤ p * nVarOf cfg + iv ∧
            p * nVarOf cfg + iv < w.node * nVarOf cfg + nVarOf cfg) :=
          row_not_in_block hpw hiv
        constructor
        · intro c hc
          rw [deleteMomentumRows_out _ _ hout, AddBlock2Diag_row_out _ _ _ hblk]
          exact (h.2.2 iv h1 h2).1 c hc
        · rw [deleteMomentumRows_out _ _ hout, AddBlock2Diag_row_out _ _ _ hblk]
          exact (h.2.2 iv h1 h2).2
  · have hfalse : geo.domain w.node = false := by
      revert hdom; cases geo.domain w.node <;> simp
    rw [bcIsoVertexPure_not_owned hfalse]
    exact h

/-- Folding heat-flux vertex bodies preserves the strong wall state. -/
theorem bchf_foldl_preserves (cfg : BCConfig) (geo : BCGeometry) (nd : BCNodes)
    (himp : cfg.implicitScheme = true) (hdyn : cfg.dynamicGrid = false) :
    ∀ (vs : List BCVertex) (s : BCState) (p : ℕ), strongWallState cfg s p →
      strongWallState cfg (vs.foldl (bcHeatFluxVertex cfg geo nd) s) p := by
  intro vs
  induction vs with
  | nil => intro s p h; exact h
  | cons w rest ih =>
    intro s p h
    rw [List.foldl_cons]
    exact ih _ p (bcHeatFluxVertex_preserves cfg geo nd s w p himp hdyn h)

/-- Folding isothermal vertex bodies preserves the strong wall state. -/
theorem bciso_foldl_preserves (cfg : BCConfig) (geo : BCGeometry) (nd : BCNodes)
    (himp : cfg.implicitScheme = true) (hdyn : cfg.dynamicGrid = false) :
    ∀ (vs : List BCVertex) (s : BCState) (p : ℕ), strongWallState cfg s p →
      strongWallState cfg (vs.foldl (bcIsoVertexPure cfg geo nd) s) p := by
  intro vs
  induction vs with
  | nil => intro s p h; exact h
  | cons w rest ih =>
    intro s p h
    rw [List.foldl_cons]
    exact ih _ p (bcIsoVertexPure_preserves cfg geo nd s w p himp hdyn h)

/-- After folding the heat-flux vertex bodies, the strong wall state holds at
every owned vertex that was processed. -/
theorem bchf_foldl_strong (cfg : BCConfig) (geo : BCGeometry) (nd : BCNodes)
    (himp : cfg.implicitScheme = true) (hdyn : cfg.dynamicGrid = false) :
    ∀ (vs : List BCVertex) (s : BCState) (v : BCVertex), v ∈ vs →
      geo.domain v.node = true →
      strongWallState cfg (vs.foldl (bcHeatFluxVertex cfg geo nd) s) v.node := by
  intro vs
  induction vs with
  | nil => intro s v hv; exact absurd hv (List.not_mem_nil v)
  | cons w rest ih =>
    intro s v hv hdom
    rw [List.foldl_cons]
    rcases List.mem_cons.mp hv with h | h
    · subst h
      exact bchf_foldl_preserves cfg geo nd himp hdyn rest _ v.node
        (bcHeatFluxVertex_establish cfg geo nd s v himp hdyn hdom)
    · exact ih _ v h hdom

/-- After folding the isothermal vertex bodies, the strong wall state holds at
every owned vertex that was processed. -/
theorem bciso_foldl_strong (cfg : BCConfig) (geo : BCGeometry) (nd : BCNodes)
    (himp : cfg.implicitScheme = true) (hdyn : cfg.dynamicGrid = false) :
    ∀ (vs : List BCVertex) (s : BCState) (v : BCVertex), v ∈ vs →
      geo.domain v.node = true →
      strongWallState cfg (vs.foldl (bcIsoVertexPure cfg geo nd) s) v.node := by
  intro vs
  induction vs with
  | nil => intro s v hv; exact absurd hv (List.not_mem_nil v)
  | cons w rest ih =>
    intro s v hv hdom
    rw [List.foldl_cons]
    rcases List.mem_cons.mp hv with h | h
    · subst h
      by_cases hvd : geo.domain v.node = true
      · rw [bcIsoVertexPure_owned hvd]
        exact bciso_foldl_preserves cfg geo nd himp hdyn rest _ v.node
          (bcIsoApply_establish cfg geo nd _ s v himp hdyn)
      · exact absurd hdom hvd
    · exact ih _ v h hdom

/-- Without CHT coupling the per-vertex isothermal body never fails and equals
its pure counterpart. -/
theorem bcIsoVertexStep_ok (cfg : BCConfig) (geo : BCGeometry) (nd : BCNodes)
    (valMarker : ℕ) (s : BCState) (v : BCVertex) :
    bcIsoVertexStep cfg geo nd false valMarker s v =
      Except.ok (bcIsoVertexPure cfg geo nd s v) := by
  rw [bcIsoVertexStep, bcIsoVertexPure, bcIsoTwall, twallNoCht]
  by_cases hdom : geo.domain v.node = false
  · simp [hdom]
  · by_cases hpy : cfg.pyCustom
    · simp [hdom, hpy, Except.map]
    · simp [hdom, hpy, Except.map]

/-- Without CHT coupling the isothermal wall routine succeeds and equals the
pure fold. -/
theorem bcIso_foldlM_ok (cfg : BCConfig) (geo : BCGeometry) (nd : BCNodes)
    (valMarker : ℕ) :
    ∀ (vs : List BCVertex) (s : BCState),
      vs.foldlM (bcIsoVertexStep cfg geo nd false valMarker) s =
        Except.ok (vs.foldl (bcIsoVertexPure cfg geo nd) s) := by
  intro vs
  induction vs with
  | nil => intro s; rfl
  | cons w rest ih =>
    intro s
    rw [List.foldlM_cons, bcIsoVertexStep_ok]
    simp only [List.foldl_cons]
    rw [← ih (bcIsoVertexPure cfg geo nd s w)]
    rfl

/-- The untouched-row lemma for the heat-flux fold: a point visited by no
vertex keeps its residual rows. -/
theorem bchf_linSysRes_untouched (cfg : BCConfig) (geo : BCGeometry) (nd : BCNodes) :
    ∀ (vs : List BCVertex) (s : BCState) (p e : ℕ), p ∉ vs.map BCVertex.node →
      (vs.foldl (bcHeatFluxVertex cfg geo nd) s).linSysRes p e = s.linSysRes p e := by
  intro vs
  induction vs with
  | nil => intro s p e _; rfl
  | cons w rest ih =>
    intro s p e hp
    rw [List.map_cons] at hp
    have hpw : p ≠ w.node := fun h => hp (List.mem_cons.mpr (Or.inl h))
    have hprest : p ∉ rest.map BCVertex.node :=
      fun h => hp (List.mem_cons.mpr (Or.inr h))
    rw [List.foldl_cons, ih _ p e hprest]
    by_cases hdom : geo.domain w.node = true
    · rw [bcHeatFluxVertex_linSysRes hdom, addEnergyRes_other _ _ _ hpw,
        zeroMomentumRes_other _ _ hpw]
    · have hfalse : geo.domain w.node = false := by
        revert hdom; cases geo.domain w.node <;> simp
      rw [bcHeatFluxVertex_not_owned hfalse]

/-- The energy-row value left by the heat-flux fold at each owned processed
vertex (processed nodes being distinct): the old value plus the convective
minus the viscous contribution. -/
theorem bchf_foldl_energy (cfg : BCConfig) (geo : BCGeometry) (nd : BCNodes) :
    ∀ (vs : List BCVertex) (s : BCState) (v : BCVertex), v ∈ vs →
      (vs.map BCVertex.node).Nodup → geo.domain v.node = true →
      (vs.foldl (bcHeatFluxVertex cfg geo nd) s).linSysRes v.node (cfg.nDim + 1) =
        s.linSysRes v.node (cfg.nDim + 1) +
          ((heatFluxConvVisc cfg geo nd v).1 - (heatFluxConvVisc cfg geo nd v).2) := by
  intro vs
  induction vs with
  | nil => intro s v hv; exact absurd hv (List.not_mem_nil v)
  | cons w rest ih =>
    intro s v hv hnd hdom
    rw [List.map_cons, List.nodup_cons] at hnd
    rw [List.foldl_cons]
    rcases List.mem_cons.mp hv with h | h
    · subst h
      rw [bchf_linSysRes_untouched cfg geo nd rest _ v.node (cfg.nDim + 1) hnd.1,
        bcHeatFluxVertex_linSysRes hdom, addEnergyRes_same,
        zeroMomentumRes_energy]
    · have hwv : w.node ≠ v.node := by
        intro he
        exact hnd.1 (he ▸ List.mem_map.mpr ⟨v, h, rfl⟩)
      have hvw : v.node ≠ w.node := fun he => hwv he.symm
      have hstep : (bcHeatFluxVertex cfg geo nd s w).linSysRes v.node (cfg.nDim + 1) =
          s.linSysRes v.node (cfg.nDim + 1) := by
        by_cases hdomw : geo.domain w.node = true
        · rw [bcHeatFluxVertex_linSysRes hdomw, addEnergyRes_other _ _ _ hvw,
            zeroMomentumRes_other _ _ hvw]
        · have hfalse : geo.domain w.node = false := by
            revert hdomw; cases geo.domain w.node <;> simp
          rw [bcHeatFluxVertex_not_owned hfalse]
      rw [ih _ v h hnd.2 hdom, hstep]

end SU2.WallBC

namespace SU2

/-- Claim C4: after a wall boundary pass - heat-flux or isothermal marker - on
a stationary mesh under implicit time integration, every domain-owned wall
vertex has exactly zero stored old velocity, exactly zero momentum-row
residual entries, and identity momentum Jacobian rows: every off-diagonal
entry zero with 1.0 on the diagonal. -/
theorem c4_strong_wall_enforcement (cfg : WallBC.BCConfig) (geo : WallBC.BCGeometry)
    (nd : WallBC.BCNodes) (valMarker : ℕ) (s : WallBC.BCState) (v : WallBC.BCVertex)
    (hv : v ∈ geo.vertices) (hdom : geo.domain v.node = true)
    (hdyn : cfg.dynamicGrid = false) (himp : cfg.implicitScheme = true) :
    WallBC.strongWallState cfg (WallBC.BC_HeatFlux_Wall cfg geo nd s) v.node ∧
    WallBC.BC_Isothermal_Wall cfg geo nd valMarker s =
      Except.ok (WallBC.isoPureFold cfg geo nd s) ∧
    WallBC.strongWallState cfg (WallBC.isoPureFold cfg geo nd s) v.node := by
  refine ⟨?_, ?_, ?_⟩
  · exact WallBC.bchf_foldl_strong cfg geo nd himp hdyn geo.vertices s v hv hdom
  · exact WallBC.bcIso_foldlM_ok cfg geo nd valMarker geo.vertices s
  · exact WallBC.bciso_foldl_strong cfg geo nd himp hdyn geo.vertices s v hv hdom

/-- Witness for claim C4's theorem at the concrete one-vertex marker: node 0,
two dimensions, so the momentum scalar rows are 1 and 2. -/
theorem c4_witness :
    (WallBC.BC_HeatFlux_Wall WallBC.bcExampleCfg WallBC.bcExampleGeo
      WallBC.bcExampleNodes WallBC.bcExampleState).velocityOld 0 0 = 0 ∧
    (WallBC.BC_HeatFlux_Wall WallBC.bcExampleCfg WallBC.bcExampleGeo
      WallBC.bcExampleNodes WallBC.bcExampleState).linSysRes 0 1 = 0 ∧
    (WallBC.BC_HeatFlux_Wall WallBC.bcExampleCfg WallBC.bcExampleGeo
      WallBC.bcExampleNodes WallBC.bcExampleState).jacobian 1 2 = 0 ∧
    (WallBC.BC_HeatFlux_Wall WallBC.bcExampleCfg WallBC.bcExampleGeo
      WallBC.bcExampleNodes WallBC.bcExampleState).jacobian 1 1 = 1 ∧
    WallBC.BC_Isothermal_Wall WallBC.bcExampleCfg WallBC.bcExampleGeo
      WallBC.bcExampleNodes 0 WallBC.bcExampleState =
      Except.ok (WallBC.isoPureFold WallBC.bcExampleCfg WallBC.bcExampleGeo
        WallBC.bcExampleNodes WallBC.bcExampleState) ∧
    (WallBC.isoPureFold WallBC.bcExampleCfg WallBC.bcExampleGeo
      WallBC.bcExampleNodes WallBC.bcExampleState).velocityOld 0 1 = 0 ∧
    (WallBC.isoPureFold WallBC.bcExampleCfg WallBC.bcExampleGeo
      WallBC.bcExampleNodes WallBC.bcExampleState).linSysRes 0 2 = 0 ∧
    (WallBC.isoPureFold WallBC.bcExampleCfg WallBC.bcExampleGeo
      WallBC.bcExampleNodes WallBC.bcExampleState).jacobian 2 1 = 0 ∧
    (WallBC.isoPureFold WallBC.bcExampleCfg WallBC.bcExampleGeo
      WallBC.bcExampleNodes WallBC.bcExampleState).jacobian 2 2 = 1 := by
  have h := c4_strong_wall_enforcement WallBC.bcExampleCfg WallBC.bcExampleGeo
    WallBC.bcExampleNodes 0 WallBC.bcExampleState WallBC.bcExampleVertex
    (List.mem_singleton.mpr rfl) rfl rfl rfl
  exact ⟨h.1.1 0 (by decide), h.1.2.1 1 (by decide) (by decide),
    (h.1.2.2 1 (by decide) (by decide)).1 2 (by decide),
    (h.1.2.2 1 (by decide) (by decide)).2, h.2.1,
    h.2.2.1 1 (by decide), h.2.2.2.1 2 (by decide) (by decide),
    (h.2.2.2.2 2 (by decide) (by decide)).1 1 (by decide),
    (h.2.2.2.2 2 (by decide) (by decide)).2⟩

/-- Claim C5: at every domain-owned vertex of a prescribed-heat-flux wall
marker on a static mesh (no customizable patch), the viscous energy
contribution is exactly the prescribed wall heat flux times the dual-grid
face area, the convective contribution is zero, and the net update to the
vertex's energy residual is their difference, -Q*A. -/
theorem c5_heatflux_energy_residual (cfg : WallBC.BCConfig) (geo : WallBC.BCGeometry)
    (nd : WallBC.BCNodes) (s : WallBC.BCState) (v : WallBC.BCVertex)
    (hv : v ∈ geo.vertices) (hnd : (geo.vertices.map WallBC.BCVertex.node).Nodup)
    (hdom : geo.domain v.node = true) (hdyn : cfg.dynamicGrid = false)
    (hpy : cfg.pyCustom = false) :
    (WallBC.heatFluxConvVisc cfg geo nd v).2 =
      cfg.wallHeatFlux / cfg.heatFluxRef * gnorm cfg.nDim v.normal ∧
    (WallBC.heatFluxConvVisc cfg geo nd v).1 = 0 ∧
    (WallBC.BC_HeatFlux_Wall cfg geo nd s).linSysRes v.node (cfg.nDim + 1) =
      s.linSysRes v.node (cfg.nDim + 1) +
        (0 - cfg.wallHeatFlux / cfg.heatFluxRef * gnorm cfg.nDim v.normal) := by
  have h2 : (WallBC.heatFluxConvVisc cfg geo nd v).2 =
      cfg.wallHeatFlux / cfg.heatFluxRef * gnorm cfg.nDim v.normal := by
    rw [WallBC.heatFluxConvVisc]
    simp [hdyn, WallBC.heatFluxAt, hpy]
  have h1 : (WallBC.heatFluxConvVisc cfg geo nd v).1 = 0 := by
    rw [WallBC.heatFluxConvVisc]
    simp [hdyn]
  refine ⟨h2, h1, ?_⟩
  have h := WallBC.bchf_foldl_energy cfg geo nd geo.vertices s v hv hnd hdom
  rw [h1, h2] at h
  exact h

/-- Witness for claim C5's theorem at the concrete one-vertex marker: heat
flux 3, reference 1, energy row index 3. -/
theorem c5_witness :
    (WallBC.heatFluxConvVisc WallBC.bcExampleCfg WallBC.bcExampleGeo
      WallBC.bcExampleNodes WallBC.bcExampleVertex).2 =
      WallBC.bcExampleCfg.wallHeatFlux / WallBC.bcExampleCfg.heatFluxRef *
        gnorm WallBC.bcExampleCfg.nDim WallBC.bcExampleVertex.normal ∧
    (WallBC.BC_HeatFlux_Wall WallBC.bcExampleCfg WallBC.bcExampleGeo
      WallBC.bcExampleNodes WallBC.bcExampleState).linSysRes 0 3 =
      WallBC.bcExampleState.linSysRes 0 3 +
        (0 - WallBC.bcExampleCfg.wallHeatFlux / WallBC.bcExampleCfg.heatFluxRef *
          gnorm WallBC.bcExampleCfg.nDim WallBC.bcExampleVertex.normal) := by
  have h := c5_heatflux_energy_residual WallBC.bcExampleCfg WallBC.bcExampleGeo
    WallBC.bcExampleNodes WallBC.bcExampleState WallBC.bcExampleVertex
    (List.mem_singleton.mpr rfl) (by decide) rfl rfl rfl
  exact ⟨h.1, h.2.2⟩

end SU2

namespace SU2.ViscRes

theorem SubtractResBlock_same (R : ℕ → ℕ → ℝ) (p : ℕ) (v : ℕ → ℝ) (w : ℕ) :
    SubtractResBlock R p v p w = R p w - v w := by
  simp [SubtractResBlock]

theorem SubtractResBlock_other (R : ℕ → ℕ → ℝ) (p : ℕ) (v : ℕ → ℝ) {q : ℕ} (w : ℕ)
    (h : q ≠ p) : SubtractResBlock R p v q w = R q w := by
  simp [SubtractResBlock, h]

theorem AddResBlock_same (R : ℕ → ℕ → ℝ) (p : ℕ) (v : ℕ → ℝ) (w : ℕ) :
    AddResBlock R p v p w = R p w + v w := by
  simp [AddResBlock]

theorem AddResBlock_other (R : ℕ → ℕ → ℝ) (p : ℕ) (v : ℕ → ℝ) {q : ℕ} (w : ℕ)
    (h : q ≠ p) : AddResBlock R p v q w = R q w := by
  simp [AddResBlock, h]

/-- The (i,j) off-diagonal block of the implicit update: subtraction. -/
theorem UpdateBlocksSub_ij {nVar : ℕ} (J : ℕ → ℕ → ℝ) {i j : ℕ}
    (jacI jacJ : ℕ → ℕ → ℝ) {a b : ℕ} (ha : a < nVar) (hb : b < nVar) :
    UpdateBlocksSub nVar J i j jacI jacJ (i * nVar + a) (j * nVar + b) =
      J (i * nVar + a) (j * nVar + b) - jacJ a b := by
  rw [UpdateBlocksSub, if_pos ⟨by omega, by omega, by omega, by omega⟩,
    Nat.add_sub_cancel_left, Nat.add_sub_cancel_left]

/-- The (j,i) off-diagonal block of the implicit update: addition. -/
theorem UpdateBlocksSub_ji {nVar : ℕ} (J : ℕ → ℕ → ℝ) {i j : ℕ} (hij : i ≠ j)
    (jacI jacJ : ℕ → ℕ → ℝ) {a b : ℕ} (ha : a < nVar) (hb : b < nVar) :
    UpdateBlocksSub nVar J i j jacI jacJ (j * nVar + a) (i * nVar + b) =
      J (j * nVar + a) (i * nVar + b) + jacI a b := by
  rw [UpdateBlocksSub, if_neg, if_pos ⟨by omega, by omega, by omega, by omega⟩,
    Nat.add_sub_cancel_left, Nat.add_sub_cancel_left]
  rintro ⟨h1, h2, _, _⟩
  exact WallBC.row_not_in_block (Ne.symm hij) ha ⟨h1, h2⟩

/-- In the direct-scatter mode the residual field of the result. -/
theorem Viscous_Residual_direct_linSysRes (K : NumericsInput → FluxResult)
    (implicitScheme tkeNeeded : Bool) (nVar : ℕ) (nd : VRNodes) (iEdge : ℕ)
    (e : Edge) (s : VRState) :
    (Viscous_Residual K implicitScheme false tkeNeeded nVar nd iEdge e s).linSysRes =
      AddResBlock (SubtractResBlock s.linSysRes e.i
        (K (buildNumericsInput tkeNeeded nd e)).flux) e.j
        (K (buildNumericsInput tkeNeeded nd e)).flux := by
  rw [Viscous_Residual]
  simp

/-- In the direct-scatter mode with the implicit scheme the Jacobian field of
the result. -/
theorem Viscous_Residual_direct_jacobian (K : NumericsInput → FluxResult)
    (tkeNeeded : Bool) (nVar : ℕ) (nd : VRNodes) (iEdge : ℕ)
    (e : Edge) (s : VRState) :
    (Viscous_Residual K true false tkeNeeded nVar nd iEdge e s).jacobian =
      UpdateBlocksSub nVar s.jacobian e.i e.j
        (K (buildNumericsInput tkeNeeded nd e)).jacI
        (K (buildNumericsInput tkeNeeded nd e)).jacJ := by
  rw [Viscous_Residual]
  simp

end SU2.ViscRes

namespace SU2

/-- Claim C8: in the direct-scatter mode, each edge subtracts the computed
flux from vertex i's residual block, adds it to vertex j's residual block,
modifies no other residual block, and under implicit time integration updates
the off-diagonal Jacobian block (i,j) by subtraction and (j,i) by addition. -/
theorem c8_edge_scatter (K : ViscRes.NumericsInput → ViscRes.FluxResult)
    (implicitScheme tkeNeeded : Bool) (nVar : ℕ) (nd : ViscRes.VRNodes)
    (iEdge : ℕ) (e : ViscRes.Edge) (s : ViscRes.VRState) (hij : e.i ≠ e.j) :
    (∀ w, (ViscRes.Viscous_Residual K implicitScheme false tkeNeeded nVar nd iEdge e
        s).linSysRes e.i w =
      s.linSysRes e.i w - (K (ViscRes.buildNumericsInput tkeNeeded nd e)).flux w) ∧
    (∀ w, (ViscRes.Viscous_Residual K implicitScheme false tkeNeeded nVar nd iEdge e
        s).linSysRes e.j w =
      s.linSysRes e.j w + (K (ViscRes.buildNumericsInput tkeNeeded nd e)).flux w) ∧
    (∀ p, p ≠ e.i → p ≠ e.j → ∀ w,
      (ViscRes.Viscous_Residual K implicitScheme false tkeNeeded nVar nd iEdge e
        s).linSysRes p w = s.linSysRes p w) ∧
    (∀ a b, a < nVar → b < nVar →
      (ViscRes.Viscous_Residual K true false tkeNeeded nVar nd iEdge e
          s).jacobian (e.i * nVar + a) (e.j * nVar + b) =
        s.jacobian (e.i * nVar + a) (e.j * nVar + b) -
          (K (ViscRes.buildNumericsInput tkeNeeded nd e)).jacJ a b) ∧
    (∀ a b, a < nVar → b < nVar →
      (ViscRes.Viscous_Residual K true false tkeNeeded nVar nd iEdge e
          s).jacobian (e.j * nVar + a) (e.i * nVar + b) =
        s.jacobian (e.j * nVar + a) (e.i * nVar + b) +
          (K (ViscRes.buildNumericsInput tkeNeeded nd e)).jacI a b) := by
  have hji : e.j ≠ e.i := Ne.symm hij
  refine ⟨?_, ?_, ?_, ?_, ?_⟩
  · intro w
    rw [ViscRes.Viscous_Residual_direct_linSysRes,
      ViscRes.AddResBlock_other _ _ _ _ hij, ViscRes.SubtractResBlock_same]
  · intro w
    rw [ViscRes.Viscous_Residual_direct_linSysRes,
      ViscRes.AddResBlock_same, ViscRes.SubtractResBlock_other _ _ _ _ hji]
  · intro p hpi hpj w
    rw [ViscRes.Viscous_Residual_direct_linSysRes,
      ViscRes.AddResBlock_other _ _ _ _ hpj, ViscRes.SubtractResBlock_other _ _ _ _ hpi]
  · intro a b ha hb
    rw [ViscRes.Viscous_Residual_direct_jacobian,
      ViscRes.UpdateBlocksSub_ij _ _ _ ha hb]
  · intro a b ha hb
    rw [ViscRes.Viscous_Residual_direct_jacobian,
      ViscRes.UpdateBlocksSub_ji _ hij _ _ ha hb]

/-- Witness for claim C8's theorem at the concrete edge (0,1) with nVar = 4:
the affected indices of the two residual blocks, an unaffected block, and the
scalar entries (0,5) of block (0,1) and (4,1) of block (1,0). -/
theorem c8_witness :
    (ViscRes.Viscous_Residual ViscRes.vrExampleK true false false 4
        ViscRes.vrExampleNodes 0 ViscRes.vrExampleEdge
        ViscRes.vrExampleState).linSysRes 0 2 =
      ViscRes.vrExampleState.linSysRes 0 2 -
        (ViscRes.vrExampleK (ViscRes.buildNumericsInput false ViscRes.vrExampleNodes
          ViscRes.vrExampleEdge)).flux 2 ∧
    (ViscRes.Viscous_Residual ViscRes.vrExampleK true false false 4
        ViscRes.vrExampleNodes 0 ViscRes.vrExampleEdge
        ViscRes.vrExampleState).linSysRes 1 2 =
      ViscRes.vrExampleState.linSysRes 1 2 +
        (ViscRes.vrExampleK (ViscRes.buildNumericsInput false ViscRes.vrExampleNodes
          ViscRes.vrExampleEdge)).flux 2 ∧
    (ViscRes.Viscous_Residual ViscRes.vrExampleK true false false 4
        ViscRes.vrExampleNodes 0 ViscRes.vrExampleEdge
        ViscRes.vrExampleState).linSysRes 5 2 =
      ViscRes.vrExampleState.linSysRes 5 2 ∧
    (ViscRes.Viscous_Residual ViscRes.vrExampleK true false false 4
        ViscRes.vrExampleNodes 0 ViscRes.vrExampleEdge
        ViscRes.vrExampleState).jacobian 0 5 =
      ViscRes.vrExampleState.jacobian 0 5 -
        (ViscRes.vrExampleK (ViscRes.buildNumericsInput false ViscRes.vrExampleNodes
          ViscRes.vrExampleEdge)).jacJ 0 1 ∧
    (ViscRes.Viscous_Residual ViscRes.vrExampleK true false false 4
        ViscRes.vrExampleNodes 0 ViscRes.vrExampleEdge
        ViscRes.vrExampleState).jacobian 4 1 =
      ViscRes.vrExampleState.jacobian 4 1 +
        (ViscRes.vrExampleK (ViscRes.buildNumericsInput false ViscRes.vrExampleNodes
          ViscRes.vrExampleEdge)).jacI 0 1 := by
  have h := c8_edge_scatter ViscRes.vrExampleK true false 4 ViscRes.vrExampleNodes 0
    ViscRes.vrExampleEdge ViscRes.vrExampleState (by decide)
  exact ⟨h.1 2, h.2.1 2, h.2.2.1 5 (by decide) (by decide) 2,
    h.2.2.2.1 0 1 (by decide) (by decide), h.2.2.2.2 0 1 (by decide) (by decide)⟩

/-- Claim C10: the flux assembler hands vertex i's cached wall shear stress to
both endpoint slots of the kernel input, and the whole edge update is
independent of the cached wall shear stress stored at vertex j. -/
theorem c10_tauwall_from_i (K : ViscRes.NumericsInput → ViscRes.FluxResult)
    (implicitScheme reducer tkeNeeded : Bool) (nVar : ℕ) (nd : ViscRes.VRNodes)
    (iEdge : ℕ) (e : ViscRes.Edge) (s : ViscRes.VRState) (x : ℝ)
    (hij : e.i ≠ e.j) :
    (ViscRes.buildNumericsInput tkeNeeded nd e).tauWallI = nd.tauWall e.i ∧
    (ViscRes.buildNumericsInput tkeNeeded nd e).tauWallJ = nd.tauWall e.i ∧
    ViscRes.Viscous_Residual K implicitScheme reducer tkeNeeded nVar
        { nd with tauWall := updFun nd.tauWall e.j x } iEdge e s =
      ViscRes.Viscous_Residual K implicitScheme reducer tkeNeeded nVar nd iEdge e s := by
  refine ⟨rfl, rfl, ?_⟩
  have hinput : ViscRes.buildNumericsInput tkeNeeded
      { nd with tauWall := updFun nd.tauWall e.j x } e =
      ViscRes.buildNumericsInput tkeNeeded nd e := by
    simp [ViscRes.buildNumericsInput, updFun, hij]
  unfold ViscRes.Viscous_Residual
  rw [hinput]

/-- Witness for claim C10's theorem: overwriting the cache at node 1 (vertex j
of the edge (0,1)) with 9 leaves the edge update unchanged. -/
theorem c10_witness :
    ViscRes.Viscous_Residual ViscRes.vrExampleK true false false 4
        { ViscRes.vrExampleNodes with
          tauWall := updFun ViscRes.vrExampleNodes.tauWall 1 9 } 0
        ViscRes.vrExampleEdge ViscRes.vrExampleState =
      ViscRes.Viscous_Residual ViscRes.vrExampleK true false false 4
        ViscRes.vrExampleNodes 0 ViscRes.vrExampleEdge ViscRes.vrExampleState ∧
    (ViscRes.buildNumericsInput false ViscRes.vrExampleNodes
        ViscRes.vrExampleEdge).tauWallJ =
      ViscRes.vrExampleNodes.tauWall 0 := by
  have h := c10_tauwall_from_i ViscRes.vrExampleK true false false 4
    ViscRes.vrExampleNodes 0 ViscRes.vrExampleEdge ViscRes.vrExampleState 9 (by decide)
  exact ⟨h.2.2, h.2.1⟩

end SU2

namespace SU2.Buffet

/-- The marker metrics and the total of the monitoring fold in closed form. -/
theorem buffet_fold_closed (cfg : BConfig) :
    ∀ (markers : List BMarker) (acc : BuffetOut),
      (markers.foldl (buffetStep cfg) acc).markerMetrics =
        acc.markerMetrics ++ markers.map (markerMetric cfg) ∧
      (markers.foldl (buffetStep cfg) acc).totalMetric =
        acc.totalMetric + (markers.map (markerMetric cfg)).sum := by
  intro markers
  induction markers with
  | nil => intro acc; simp
  | cons m rest ih =>
    intro acc
    rw [List.foldl_cons]
    obtain ⟨ihm, iht⟩ := ih (buffetStep cfg acc m)
    have hstepm : (buffetStep cfg acc m).markerMetrics =
        acc.markerMetrics ++ [markerMetric cfg m] := by
      rw [buffetStep, markerMetric]
      by_cases hw : m.isWall
      · simp [hw]
      · simp [hw]
    have hstept : (buffetStep cfg acc m).totalMetric =
        acc.totalMetric + markerMetric cfg m := by
      rw [buffetStep, markerMetric]
      by_cases hw : m.isWall
      · by_cases hm : m.monitoring
        · simp [hw, hm]
        · simp [hw, hm]
      · simp [hw]
    constructor
    · rw [ihm, hstepm, List.append_assoc]
      simp
    · rw [iht, hstept, List.map_cons, List.sum_cons]
      ring

/-- Zipping a constant map of a list with the list itself pairs the constant
with each element. -/
theorem zip_map_const_self {α β : Type} (l : List α) (c : β) :
    (l.map (fun _ => c)).zip l = l.map (fun t => (c, t)) := by
  induction l with
  | nil => rfl
  | cons a rest ih => rw [List.map_cons, List.zip_cons_cons, ih, List.map_cons]

/-- The per-surface metrics of a single-marker partition in closed form. -/
theorem Buffet_Monitoring_single_surface (cfg : BConfig) (m : BMarker) :
    (Buffet_Monitoring cfg [m]).surfaceMetrics =
      cfg.monitoringTags.map (fun t => if m.isWall ∧ m.monitoring ∧ t = m.tag
        then (m.vertices.map (vertexMetric cfg)).sum else 0) := by
  rw [Buffet_Monitoring, List.foldl_cons, List.foldl_nil, buffetStep, buffetInit]
  by_cases hw : m.isWall
  · by_cases hm : m.monitoring
    · simp only [hw, hm, if_true]
      rw [zip_map_const_self, List.map_map]
      congr 1
      funext t
      simp [hw, hm, Function.comp]
    · simp [hw, hm]
  · simp [hw]

/-- The total of a single-marker partition is that marker's metric. -/
theorem Buffet_Monitoring_single_total (cfg : BConfig) (m : BMarker) :
    (Buffet_Monitoring cfg [m]).totalMetric = markerMetric cfg m := by
  have h := (buffet_fold_closed cfg [m] (buffetInit cfg)).2
  rw [Buffet_Monitoring, h, buffetInit]
  simp

/-- The marker metric is additive over a split of the vertex list. -/
theorem markerMetric_append (cfg : BConfig) (m : BMarker) (v1 v2 : List BVertex) :
    markerMetric cfg (restrictMarker m (v1 ++ v2)) =
      markerMetric cfg (restrictMarker m v1) + markerMetric cfg (restrictMarker m v2) := by
  rw [markerMetric, markerMetric, markerMetric, restrictMarker, restrictMarker,
    restrictMarker]
  by_cases h : m.isWall ∧ m.monitoring
  · simp [h]
  · simp [h]

/-- Elementwise addition under getD of mapped lists. -/
theorem map_getD_add {α : Type} (h1 h2 h12 : α → ℝ) (hpt : ∀ a, h12 a = h1 a + h2 a) :
    ∀ (l : List α) (k : ℕ),
      (l.map h12).getD k 0 = (l.map h1).getD k 0 + (l.map h2).getD k 0 := by
  intro l
  induction l with
  | nil => intro k; simp
  | cons a rest ih =>
    intro k
    cases k with
    | zero =>
      rw [List.map_cons, List.map_cons, List.map_cons, List.getD_cons_zero,
        List.getD_cons_zero, List.getD_cons_zero]
      exact hpt a
    | succ k =>
      rw [List.map_cons, List.map_cons, List.map_cons, List.getD_cons_succ,
        List.getD_cons_succ, List.getD_cons_succ]
      exact ih k

/-- The loop body of Evaluate_ObjFunc as a conditional contribution. -/
theorem objAdd_eval (acc : ℝ) (ent : ObjKind × ℝ × ℝ) :
    objAdd acc ent = acc + (if ent.1 = ObjKind.buffet then ent.2.1 * ent.2.2 else 0) := by
  rcases hk : ent.1 with _ | _ <;> simp [objAdd, hk]

/-- The closed form of Evaluate_ObjFunc. -/
theorem evalObjFunc_closed :
    ∀ (entries : List (ObjKind × ℝ × ℝ)) (base : ℝ),
      Evaluate_ObjFunc base entries = base +
        (entries.map (fun ent => if ent.1 = ObjKind.buffet
          then ent.2.1 * ent.2.2 else 0)).sum := by
  intro entries
  induction entries with
  | nil => intro base; simp [Evaluate_ObjFunc]
  | cons ent rest ih =>
    intro base
    rw [Evaluate_ObjFunc, List.foldl_cons]
    have hrest := ih (objAdd base ent)
    rw [Evaluate_ObjFunc] at hrest
    rw [hrest, objAdd_eval, List.map_cons, List.sum_cons]
    ring

end SU2.Buffet

namespace SU2

/-- Claim C9: the buffet sensor of every wall boundary vertex is the smooth
Heaviside of the normalized skin-friction/freestream dot product; each
marker's metric is the area-weighted sum of its sensors over the reference
area (zero when not monitored); the global metric is the sum of the
per-marker metrics; summing the per-partition outputs of a 2-partition split
of a marker reproduces the single-partition totals and surface metrics; and
the composite objective gains the weighted per-marker metric exactly for the
buffet-sensor objective. -/
theorem c9_buffet_monitoring (cfg : Buffet.BConfig) (markers : List Buffet.BMarker)
    (m : Buffet.BMarker) (v1 v2 : List Buffet.BVertex) (v : Buffet.BVertex)
    (base : ℝ) (entries : List (Buffet.ObjKind × ℝ × ℝ)) (k : ℕ) :
    Buffet.buffetSensor cfg v =
      1 / (1 + Real.exp (2 * cfg.buffetK *
        (dotR cfg.nDim v.skinFriction cfg.velFS /
          (Real.sqrt (sqNormR cfg.nDim v.skinFriction) * Buffet.velMagFS cfg) +
          cfg.buffetLambda))) ∧
    (Buffet.Buffet_Monitoring cfg markers).markerMetrics =
      markers.map (Buffet.markerMetric cfg) ∧
    Buffet.markerMetric cfg m = (if m.isWall ∧ m.monitoring then
      (m.vertices.map (fun w => Buffet.buffetSensor cfg w *
        gnorm cfg.nDim w.normal / cfg.refArea)).sum else 0) ∧
    (Buffet.Buffet_Monitoring cfg markers).totalMetric =
      (markers.map (Buffet.markerMetric cfg)).sum ∧
    Buffet.combineTotal [Buffet.Buffet_Monitoring cfg [Buffet.restrictMarker m v1],
        Buffet.Buffet_Monitoring cfg [Buffet.restrictMarker m v2]] =
      (Buffet.Buffet_Monitoring cfg [Buffet.restrictMarker m (v1 ++ v2)]).totalMetric ∧
    Buffet.combineSurface [Buffet.Buffet_Monitoring cfg [Buffet.restrictMarker m v1],
        Buffet.Buffet_Monitoring cfg [Buffet.restrictMarker m v2]] k =
      (Buffet.Buffet_Monitoring cfg
        [Buffet.restrictMarker m (v1 ++ v2)]).surfaceMetrics.getD k 0 ∧
    Buffet.Evaluate_ObjFunc base entries = base +
      (entries.map (fun ent => if ent.1 = Buffet.ObjKind.buffet
        then ent.2.1 * ent.2.2 else 0)).sum := by
  refine ⟨rfl, ?_, rfl, ?_, ?_, ?_, Buffet.evalObjFunc_closed entries base⟩
  · have h := (Buffet.buffet_fold_closed cfg markers (Buffet.buffetInit cfg)).1
    rw [Buffet.Buffet_Monitoring, h, Buffet.buffetInit]
    simp
  · have h := (Buffet.buffet_fold_closed cfg markers (Buffet.buffetInit cfg)).2
    rw [Buffet.Buffet_Monitoring, h, Buffet.buffetInit]
    simp
  · rw [Buffet.combineTotal]
    simp only [List.map_cons, List.map_nil, List.sum_cons, List.sum_nil]
    rw [Buffet.Buffet_Monitoring_single_total, Buffet.Buffet_Monitoring_single_total,
      Buffet.Buffet_Monitoring_single_total, Buffet.markerMetric_append]
    ring
  · rw [Buffet.combineSurface]
    simp only [List.map_cons, List.map_nil, List.sum_cons, List.sum_nil]
    rw [Buffet.Buffet_Monitoring_single_surface, Buffet.Buffet_Monitoring_single_surface,
      Buffet.Buffet_Monitoring_single_surface]
    have hpt : ∀ t : ℕ,
        (if (Buffet.restrictMarker m (v1 ++ v2)).isWall ∧
            (Buffet.restrictMarker m (v1 ++ v2)).monitoring ∧
            t = (Buffet.restrictMarker m (v1 ++ v2)).tag
          then ((Buffet.restrictMarker m (v1 ++ v2)).vertices.map
            (Buffet.vertexMetric cfg)).sum else 0) =
        (if (Buffet.restrictMarker m v1).isWall ∧
            (Buffet.restrictMarker m v1).monitoring ∧
            t = (Buffet.restrictMarker m v1).tag
          then ((Buffet.restrictMarker m v1).vertices.map
            (Buffet.vertexMetric cfg)).sum else 0) +
        (if (Buffet.restrictMarker m v2).isWall ∧
            (Buffet.restrictMarker m v2).monitoring ∧
            t = (Buffet.restrictMarker m v2).tag
          then ((Buffet.restrictMarker m v2).vertices.map
            (Buffet.vertexMetric cfg)).sum else 0) := by
      intro t
      by_cases hc : (m.isWall = true) ∧ (m.monitoring = true) ∧ t = m.tag
      · simp [Buffet.restrictMarker, hc.1, hc.2.1, hc.2.2, List.sum_append]
      · rw [if_neg, if_neg, if_neg]
        · simp
        · simpa [Buffet.restrictMarker] using hc
        · simpa [Buffet.restrictMarker] using hc
        · simpa [Buffet.restrictMarker] using hc
    have key := Buffet.map_getD_add _ _ _ hpt cfg.monitoringTags k
    rw [key]
    ring

end SU2
